import Mathlib

/-!
Verification of the file-pairing and sequencing logic of the
`spatial_scripts` repository (two Python scripts, `slrspatial.py` and
`a16spatial.py`), against its natural-language specification.

The Python source is shallowly embedded: directories become lists of
filenames (a real file system guarantees the names are distinct),
pure helpers become Lean functions, the stateful rename loops become
folds threading an explicit directory state, and external subprocess
results are passed in as explicit data.  Strings are modelled at the
ASCII level (all the filename machinery in the scripts is ASCII:
digits `0`-`9`, letters, `-`, `.`), so Python's `str.lower`,
`str.isdigit` and `\d` coincide with their ASCII restrictions.
POSIX semantics are used for `os.rename` / `shutil.move`: renaming
onto an existing path silently replaces it.
-/

namespace SpatialScripts

/-! ### Natural sort key (`slrspatial.natural_sort_key`)

`natural_sort_key(s)` in the source is
`[int(text) if text.isdigit() else text.lower() for text in re.split(r'(\d+)', s)]`.
`re.split` with a capturing group returns the interleaving
`[gap₀, run₁, gap₁, run₂, …, gapₖ]` where the `runᵢ` are the maximal
digit runs of `s` and the `gapᵢ` are the (possibly empty) stretches
between them. -/

/-- Python `str.lower` restricted to ASCII: uppercase letters map to
their lowercase forms, every other character is unchanged. -/
def lowerChar : Char → Char
  | 'A' => 'a' | 'B' => 'b' | 'C' => 'c' | 'D' => 'd' | 'E' => 'e'
  | 'F' => 'f' | 'G' => 'g' | 'H' => 'h' | 'I' => 'i' | 'J' => 'j'
  | 'K' => 'k' | 'L' => 'l' | 'M' => 'm' | 'N' => 'n' | 'O' => 'o'
  | 'P' => 'p' | 'Q' => 'q' | 'R' => 'r' | 'S' => 's' | 'T' => 't'
  | 'U' => 'u' | 'V' => 'v' | 'W' => 'w' | 'X' => 'x' | 'Y' => 'y'
  | 'Z' => 'z'
  | c => c

/-- Numeric value of a digit run, as Python `int` reads it (leading
zeros allowed). -/
def digitsVal (run : List Char) : Nat :=
  run.foldl (fun a c => a * 10 + (c.toNat - 48)) 0

/-- Prepend one character to an alternating run decomposition.  The
decomposition always starts and ends with a (possibly empty)
non-digit gap and strictly alternates gaps with nonempty digit runs,
exactly as `re.split(r'(\d+)', s)` produces. -/
def prependRun (c : Char) (rs : List (List Char)) : List (List Char) :=
  if c.isDigit then
    match rs with
    | [] :: d :: rest => [] :: (c :: d) :: rest
    | _ => [] :: [c] :: rs
  else
    match rs with
    | r :: rest => (c :: r) :: rest
    | [] => [[c]]

/-- Model of `re.split(r'(\d+)', s)` on the character list of `s`. -/
def splitRuns : List Char → List (List Char)
  | [] => [[]]
  | c :: cs => prependRun c (splitRuns cs)

/-- One element of a natural-sort key: Python produces a heterogeneous
list mixing `int`s (from digit runs) and `str`s (lowercased gaps). -/
inductive Seg where
  | str : String → Seg
  | num : Nat → Seg
deriving DecidableEq, Repr

/-- The list-comprehension body of `natural_sort_key`:
`int(text) if text.isdigit() else text.lower()`.  Python's
`text.isdigit()` is true exactly for nonempty all-digit strings. -/
def pySeg (run : List Char) : Seg :=
  if run ≠ [] ∧ run.all Char.isDigit then Seg.num (digitsVal run)
  else Seg.str (String.mk (run.map lowerChar))

/-- Model of `natural_sort_key` from `slrspatial.py`. -/
def natural_sort_key (s : String) : List Seg :=
  (splitRuns s.data).map pySeg

/-- Python comparison of two key elements.  Comparing an `int` with a
`str` raises `TypeError`, modelled as `none`. -/
def pyCompareSeg : Seg → Seg → Option Ordering
  | Seg.str a, Seg.str b => some (compare a b)
  | Seg.num a, Seg.num b => some (compare a b)
  | _, _ => none

/-- Python lexicographic comparison of two keys (lists), propagating a
`TypeError` (`none`) from any element comparison it reaches. -/
def pyCompareKey : List Seg → List Seg → Option Ordering
  | [], [] => some Ordering.eq
  | [], _ :: _ => some Ordering.lt
  | _ :: _, [] => some Ordering.gt
  | a :: as, b :: bs =>
    match pyCompareSeg a b with
    | none => none
    | some Ordering.eq => pyCompareKey as bs
    | some o => some o

/-- The `≤` test `list.sort(key=natural_sort_key)` effectively uses:
`a` may stay before `b` iff `key a > key b` fails. -/
def keyLe (a b : String) : Bool :=
  match pyCompareKey (natural_sort_key a) (natural_sort_key b) with
  | some Ordering.gt => false
  | _ => true

/-- Stable insertion into a `keyLe`-sorted list: the new element goes
before the first strictly-or-equally later element, keeping earlier
list elements first among equals — the ordering Python's stable sort
produces. -/
def insertKeyed (x : String) : List String → List String
  | [] => [x]
  | y :: ys => if keyLe x y then x :: y :: ys else y :: insertKeyed x ys

/-- Model of `list.sort(key=natural_sort_key)`: a stable sort by
`natural_sort_key`. -/
def pySortByKey : List String → List String
  | [] => []
  | x :: xs => insertKeyed x (pySortByKey xs)

/-- Well-formedness of a `re.split(r'(\d+)', ·)` result: a (possibly
empty) digit-free gap, then alternately a nonempty digit run and a
digit-free gap, ending with a gap. -/
inductive RunsOk : List (List Char) → Prop
  | single (g : List Char) (hg : ∀ c ∈ g, c.isDigit = false) : RunsOk [g]
  | cons (g d : List Char) (rest : List (List Char))
      (hg : ∀ c ∈ g, c.isDigit = false) (hd : d ≠ [])
      (hdd : ∀ c ∈ d, c.isDigit = true) (h : RunsOk rest) :
      RunsOk (g :: d :: rest)

/-- Well-typedness of a natural-sort key: a string segment, then
alternately an integer segment and a string segment. -/
inductive AltKey : List Seg → Prop
  | single (s : String) : AltKey [Seg.str s]
  | cons (s : String) (n : Nat) (rest : List Seg) (h : AltKey rest) :
      AltKey (Seg.str s :: Seg.num n :: rest)

/-- Test for a string segment of a key. -/
def segIsStr : Seg → Bool
  | Seg.str _ => true
  | Seg.num _ => false

/-- Python `str.lower` on a whole string (ASCII model). -/
def strLower (s : String) : String :=
  String.mk (s.data.map lowerChar)

/-! ### Filename pattern matcher (`a16spatial`, regex `(.+)-(\d+)-corrected\.(.+)`)

`re.match` with this pattern is anchored at the start; because the
trailing `(.+)` is greedy and unanchored material after it would be
consumed by it, a successful match decomposes the whole filename as
`group1 ++ "-" ++ digits ++ "-corrected." ++ group3`.  Greedy
backtracking of the first `(.+)` picks the LAST position of `-` whose
tail parses as `digits ++ "-corrected." ++ nonempty`; a shorter digit
run can never rescue a failed attempt because the character after a
maximal digit run is not a digit, hence not `-`. -/

/-- Character list of the literal `-corrected.` between the number and
the extension. -/
def corrTag : List Char := "-corrected.".data

/-- Attempt to read `digits ++ "-corrected." ++ ext` (digits and ext
nonempty) from a tail of the filename. -/
def tailParse (t : List Char) : Option (List Char × List Char) :=
  if t.takeWhile Char.isDigit = [] then none
  else if (t.dropWhile Char.isDigit).take 11 = corrTag ∧
      11 < (t.dropWhile Char.isDigit).length then
    some (t.takeWhile Char.isDigit, (t.dropWhile Char.isDigit).drop 11)
  else none

/-- Attempt of the regex with the first group ending just before
position `i`: succeeds iff `cs[i] = '-'` and the tail after it parses. -/
def dashAt (cs : List Char) (i : Nat) : Option (List Char × List Char) :=
  if cs[i]? = some '-' then tailParse (cs.drop (i + 1)) else none

/-- Scan dash positions from `i` downwards (greedy: longest first
group wins), never at position 0 (the first group is nonempty). -/
def findDash (cs : List Char) : Nat → Option (Nat × List Char × List Char)
  | 0 => none
  | i + 1 =>
    match dashAt cs (i + 1) with
    | some (ds, ext) => some (i + 1, ds, ext)
    | none => findDash cs i

/-- Model of `re.match(r'(.+)-(\d+)-corrected\.(.+)', s)`, returning
`(group1, digits, extension)`. -/
def parseCorrected (s : String) : Option (String × String × String) :=
  match findDash s.data (s.data.length - 1) with
  | some (i, ds, ext) =>
    some (String.mk (s.data.take i), String.mk ds, String.mk ext)
  | none => none

/-! ### Identifier-based pairing (`a16spatial.match_and_rename_files`) -/

/-- Value stored in the `files_a` dictionary for one number key. -/
structure SideAInfo where
  fname : String
  pfx : String
  ext : String
deriving DecidableEq, Repr

/-- Python dict assignment `files_a[number] = …`: replaces the entry if
the key exists, appends otherwise (insertion order preserved). -/
def dictInsert (m : List (String × SideAInfo)) (k : String) (v : SideAInfo) :
    List (String × SideAInfo) :=
  if m.any (fun kv => kv.1 = k) then
    m.map (fun kv => if kv.1 = k then (k, v) else kv)
  else m ++ [(k, v)]

/-- Python dict lookup `files_a[number]` / `number in files_a`. -/
def dictFind (m : List (String × SideAInfo)) (k : String) : Option SideAInfo :=
  match m with
  | [] => none
  | kv :: rest => if kv.1 = k then some kv.2 else dictFind rest k

/-- One filename of directory A's scan: store parsed files under
their number key, ignore non-matching names. -/
def buildStep (m : List (String × SideAInfo)) (fn : String) :
    List (String × SideAInfo) :=
  match parseCorrected fn with
  | some (p, num, ext) => dictInsert m num ⟨fn, p, ext⟩
  | none => m

/-- Building the `files_a` dictionary by scanning directory A's
listing; non-matching filenames are ignored. -/
def buildFilesA (dirA : List String) : List (String × SideAInfo) :=
  dirA.foldl buildStep []

/-- Every stored dictionary entry records the parse of its filename:
`files_a[number] = {filename, prefix_a, extension}` comes from a
successful pattern match. -/
def FaWf (fa : List (String × SideAInfo)) : Prop :=
  ∀ kv ∈ fa, parseCorrected kv.2.fname = some (kv.2.pfx, kv.1, kv.2.ext)

/-- The rename target `f"{new_prefix}-{number}-corrected.{extension}"`. -/
def mkCorrectedName (p num ext : String) : String :=
  p ++ "-" ++ num ++ "-corrected." ++ ext

/-- POSIX `os.rename` / same-filesystem `shutil.move` on a directory
listing: the entry named `old` takes the name `new`; a pre-existing
entry named `new` is silently replaced. -/
def renameOver (d : List String) (old new : String) : List String :=
  (d.filter (fun x => x ≠ new)).map (fun x => if x = old then new else x)

/-- State of the directory-B loop of `match_and_rename_files`:
current listing of B plus the counters and the reported files. -/
structure BState where
  dirB : List String
  renamed : Nat
  skipped : Nat
  errors : Nat
  unmatched : List String
  badPattern : List String
deriving DecidableEq, Repr

/-- One iteration of the directory-B loop: skip names that no longer
exist (`os.path.isfile`), then classify by pattern match, key lookup
and comparison with side A's stored group 1, renaming on mismatch. -/
def stepB (fa : List (String × SideAInfo)) (st : BState) (fn : String) :
    BState :=
  if fn ∈ st.dirB then
    match parseCorrected fn with
    | some (p, num, ext) =>
      match dictFind fa num with
      | some info =>
        if p = info.pfx then
          { st with skipped := st.skipped + 1 }
        else
          { st with
            dirB := renameOver st.dirB fn (mkCorrectedName info.pfx num ext),
            renamed := st.renamed + 1 }
      | none => { st with unmatched := st.unmatched ++ [fn] }
    | none => { st with badPattern := st.badPattern ++ [fn] }
  else st

/-- The directory-B loop over the `os.listdir` snapshot. -/
def runB (fa : List (String × SideAInfo)) (st : BState) :
    List String → BState
  | [] => st
  | fn :: rest => runB fa (stepB fa st fn) rest

/-- Model of `match_and_rename_files(dir_a, dir_b)`: build the side-A
dictionary, return early (`none`) if it is empty, else run the
directory-B loop over B's listing snapshot. -/
def match_and_rename_files (dirA dirB : List String) : Option BState :=
  let fa := buildFilesA dirA
  if fa = [] then none
  else some (runB fa ⟨dirB, 0, 0, 0, [], []⟩ dirB)

/-- Classification of a B-side filename against the side-A dictionary,
mirroring the branch structure of the loop body. -/
inductive BClass where
  | same
  | rename (tgt : String)
  | noKey
  | noPat
deriving DecidableEq, Repr

/-- Compute the classification of one B-side filename. -/
def classifyB (fa : List (String × SideAInfo)) (fn : String) : BClass :=
  match parseCorrected fn with
  | none => BClass.noPat
  | some (p, num, ext) =>
    match dictFind fa num with
    | none => BClass.noKey
    | some info =>
      if p = info.pfx then BClass.same
      else BClass.rename (mkCorrectedName info.pfx num ext)

/-- Does classification produce `same` (already paired, skip)? -/
def isSameB (fa : List (String × SideAInfo)) (fn : String) : Bool :=
  match classifyB fa fn with
  | BClass.same => true
  | _ => false

/-- Does classification produce a rename? -/
def isRenameB (fa : List (String × SideAInfo)) (fn : String) : Bool :=
  match classifyB fa fn with
  | BClass.rename _ => true
  | _ => false

/-- Does classification report a missing key on side A? -/
def isNoKeyB (fa : List (String × SideAInfo)) (fn : String) : Bool :=
  match classifyB fa fn with
  | BClass.noKey => true
  | _ => false

/-! ### Index-based pairing (`slrspatial.process_images`, step 1) -/

/-- Bool test that `suf` is a suffix of `s`. -/
def endsWithStr (s suf : String) : Bool :=
  decide (suf.data.length ≤ s.data.length) &&
    decide (s.data.drop (s.data.length - suf.data.length) = suf.data)

/-- The image filter
`f.lower().endswith(('.jpg', '.jpeg', '.JPG', '.JPEG'))`: after
lowercasing only the two lowercase suffixes can match. -/
def isImageName (f : String) : Bool :=
  endsWithStr (strLower f) ".jpg" || endsWithStr (strLower f) ".jpeg"

/-- Filter a folder listing to image files and sort naturally, as
`process_images` prepares each folder. -/
def sortedImages (folder : List String) : List String :=
  pySortByKey (folder.filter isImageName)

/-- Outcome of step 1 of `process_images`: `fatal` is the
count-mismatch abort (carrying both counts), `dir2` the resulting
listing of the second folder, `renames` the performed renames in
order (source name, target name). -/
structure Step1Result where
  fatal : Option (Nat × Nat)
  dir2 : List String
  renames : List (String × String)
deriving DecidableEq, Repr

/-- The step-1 rename loop over the zipped sorted listings. -/
def zipRenameFold :
    List (String × String) → List String → List String × List (String × String)
  | [], d => (d, [])
  | (img1, img2) :: rest, d =>
    if img2 = img1 then zipRenameFold rest d
    else
      let res := zipRenameFold rest (renameOver d img2 img1)
      (res.1, (img2, img1) :: res.2)

/-- Model of `process_images` step 1 (list, filter, sort, count check,
zip and rename), on the two folder listings. -/
def process_images_step1 (folder1 folder2 : List String) : Step1Result :=
  if (sortedImages folder1).length = (sortedImages folder2).length then
    ⟨none,
      (zipRenameFold ((sortedImages folder1).zip (sortedImages folder2))
        folder2).1,
      (zipRenameFold ((sortedImages folder1).zip (sortedImages folder2))
        folder2).2⟩
  else
    ⟨some ((sortedImages folder1).length, (sortedImages folder2).length),
      folder2, []⟩

/-! ### External tool invocation (`slrspatial.run_command`) and the
rotation loop (`process_images`, step 2) -/

/-- ASCII whitespace, as Python `str.strip()` removes it. -/
def isPyWsp (c : Char) : Bool :=
  c = ' ' || c = '\t' || c = '\n' || c = '\r' || c = '\x0b' || c = '\x0c'

/-- Python `str.strip()` (ASCII model): drop whitespace from both
ends. -/
def pyStrip (s : String) : String :=
  String.mk (((s.data.dropWhile isPyWsp).reverse.dropWhile isPyWsp).reverse)

/-- Result of `subprocess.run(…)` as observed by `run_command`. -/
inductive CmdResult where
  | success (stdout : String)
  | failure (exitCode : Nat) (stdout stderr : String)
deriving DecidableEq, Repr

/-- Model of `run_command`: a nonzero exit is caught and surfaced as
`None`; a success returns the stripped standard output. -/
def run_command : CmdResult → Option String
  | CmdResult.success out => some (pyStrip out)
  | CmdResult.failure _ _ _ => none

/-- Model of `orientation_to_jpegtran_arg`: the dict lookup with
`.get`, `None` both for orientation 1 and for unknown values. -/
def orientation_to_jpegtran_arg : Int → Option (List String)
  | 2 => some ["-flip", "horizontal"]
  | 3 => some ["-rotate", "180"]
  | 4 => some ["-flip", "vertical"]
  | 5 => some ["-transpose"]
  | 6 => some ["-rotate", "90"]
  | 7 => some ["-transverse"]
  | 8 => some ["-rotate", "270"]
  | _ => none

/-- Python `int(s)`: optional surrounding whitespace and sign, then a
nonempty digit string; anything else raises `ValueError` (`none`).
`int(None)` — the value `run_command` yields on tool failure — raises
`TypeError`, handled at the call site model below. -/
def pyInt (s : String) : Option Int :=
  match (pyStrip s).data with
  | '-' :: ds =>
    if ds ≠ [] ∧ ds.all Char.isDigit then some (-(digitsVal ds : Int)) else none
  | '+' :: ds =>
    if ds ≠ [] ∧ ds.all Char.isDigit then some ((digitsVal ds : Int)) else none
  | ds =>
    if ds ≠ [] ∧ ds.all Char.isDigit then some ((digitsVal ds : Int)) else none

/-- Outcome of the step-2 rotation loop: either the whole list was
processed, or an uncaught exception (`int(None)` / `int(garbage)`)
crashed the run, recording how many files had been fully processed. -/
inductive RotateOutcome where
  | completed (processed : Nat)
  | crashed (processedBefore : Nat) (file : String)
deriving DecidableEq, Repr

/-- Model of the step-2 loop body chain
`orientation_to_jpegtran_arg(int(run_command(exiftool …)))` for each
image: `orient` gives the per-file `exiftool -Orientation#` result.
The subsequent `jpegtran`/`exiftool` calls and the rename of the
temporary file are abstracted as succeeding. -/
def rotateStep2 (orient : String → CmdResult) : List String → RotateOutcome
  | [] => RotateOutcome.completed 0
  | img :: rest =>
    match run_command (orient img) with
    | none => RotateOutcome.crashed 0 img
    | some out =>
      match pyInt out with
      | none => RotateOutcome.crashed 0 img
      | some _ =>
        match rotateStep2 orient rest with
        | RotateOutcome.completed k => RotateOutcome.completed (k + 1)
        | RotateOutcome.crashed k f => RotateOutcome.crashed (k + 1) f

/-! ### Datetime stamping (`a16spatial.set_datetime_from_filename`) -/

/-- Attempt of `IMG(\d{8})-(\d{6})` anchored at the current position:
the literal `IMG`, exactly 8 digits, `-`, 6 digits. -/
def matchDateAt (cs : List Char) : Option (List Char × List Char) :=
  match cs with
  | 'I' :: 'M' :: 'G' :: rest =>
    let d8 := rest.take 8
    let t6 := (rest.drop 9).take 6
    if d8.length = 8 ∧ d8.all Char.isDigit ∧ rest[8]? = some '-' ∧
        t6.length = 6 ∧ t6.all Char.isDigit then
      some (d8, t6)
    else none
  | _ => none

/-- Model of `re.compile(r'IMG(\d{8})-(\d{6})').search`: leftmost
successful attempt. -/
def searchDate : List Char → Option (List Char × List Char)
  | [] => none
  | c :: cs =>
    match matchDateAt (c :: cs) with
    | some r => some r
    | none => searchDate cs

/-- Gregorian leap-year rule, as `datetime` validates it. -/
def isLeapYear (y : Nat) : Bool :=
  y % 4 == 0 && (y % 100 != 0 || y % 400 == 0)

/-- Days in a month of the proleptic Gregorian calendar. -/
def daysInMonth (y m : Nat) : Nat :=
  if m = 2 then (if isLeapYear y then 29 else 28)
  else if m = 4 ∨ m = 6 ∨ m = 9 ∨ m = 11 then 30
  else 31

/-- Calendar validity of the extracted components, matching
`datetime.strptime(…, "%Y:%m:%d %H:%M:%S")` on the rigid
`dddd:dd:dd dd:dd:dd` string this script builds (`strptime`'s regex
plus the `datetime` constructor's range checks). -/
def validDateTime (y mo d h mi s : Nat) : Bool :=
  decide (1 ≤ y) && decide (y ≤ 9999) && decide (1 ≤ mo) &&
    decide (mo ≤ 12) && decide (1 ≤ d) && decide (d ≤ daysInMonth y mo) &&
    decide (h ≤ 23) && decide (mi ≤ 59) && decide (s ≤ 59)

/-- Per-file outcome of the datetime-stamping loop. -/
inductive DtOutcome where
  | success (ts : String)
  | skipped
  | errored
deriving DecidableEq, Repr

/-- The `"YYYY:MM:DD HH:MM:SS"` string built from the two digit
groups. -/
def exifTimestamp (d8 t6 : List Char) : String :=
  String.mk (d8.take 4) ++ ":" ++ String.mk ((d8.drop 4).take 2) ++ ":" ++
    String.mk (d8.drop 6) ++ " " ++ String.mk (t6.take 2) ++ ":" ++
    String.mk ((t6.drop 2).take 2) ++ ":" ++ String.mk (t6.drop 4)

/-- Per-file classification in `set_datetime_from_filename`: no
pattern match is a skip; a match with calendar-invalid components is
an error for that file; otherwise the timestamp string is produced
(and used to set `DateTimeOriginal`, `CreateDate`, `ModifyDate`).
The `exiftool` call itself is abstracted as succeeding. -/
def classifyDatetime (filename : String) : DtOutcome :=
  match searchDate filename.data with
  | none => DtOutcome.skipped
  | some (d8, t6) =>
    if validDateTime (digitsVal (d8.take 4)) (digitsVal ((d8.drop 4).take 2))
        (digitsVal (d8.drop 6)) (digitsVal (t6.take 2))
        (digitsVal ((t6.drop 2).take 2)) (digitsVal (t6.drop 4)) then
      DtOutcome.success (exifTimestamp d8 t6)
    else DtOutcome.errored

/-- The `-sbs.tiff` input filter of `set_datetime_from_filename`. -/
def isSbsTiff (f : String) : Bool :=
  endsWithStr (strLower f) "-sbs.tiff"

/-- One file of the datetime-stamping loop, updating the
`(success_count, skipped_count, error_count)` counters. -/
def dtStep (acc : Nat × Nat × Nat) (f : String) : Nat × Nat × Nat :=
  match classifyDatetime f with
  | DtOutcome.success _ => (acc.1 + 1, acc.2.1, acc.2.2)
  | DtOutcome.skipped => (acc.1, acc.2.1 + 1, acc.2.2)
  | DtOutcome.errored => (acc.1, acc.2.1, acc.2.2 + 1)

/-- Model of `set_datetime_from_filename` over a directory listing:
`(success_count, skipped_count, error_count)`. -/
def set_datetime_from_filename (files : List String) : Nat × Nat × Nat :=
  (files.filter isSbsTiff).foldl dtStep (0, 0, 0)

/-! ### Theorems: structure of the key -/

theorem forallIsDigit_cons {c : Char} {g : List Char} (hc : c.isDigit = true)
    (hg : ∀ x ∈ g, x.isDigit = true) : ∀ x ∈ c :: g, x.isDigit = true := by
  intro x hx
  rcases List.mem_cons.mp hx with h | h
  · rwa [h]
  · exact hg x h

theorem forallNotDigit_cons {c : Char} {g : List Char} (hc : c.isDigit = false)
    (hg : ∀ x ∈ g, x.isDigit = false) : ∀ x ∈ c :: g, x.isDigit = false := by
  intro x hx
  rcases List.mem_cons.mp hx with h | h
  · rwa [h]
  · exact hg x h

theorem runsOk_prependRun (c : Char) (rs : List (List Char)) (h : RunsOk rs) :
    RunsOk (prependRun c rs) := by
  by_cases hc : c.isDigit = true
  · have hone : ∀ x ∈ [c], x.isDigit = true :=
      forallIsDigit_cons hc (by intro x hx; cases hx)
    cases h with
    | single g hg =>
      simp only [prependRun, if_pos hc]
      exact RunsOk.cons [] [c] [g] (by intro x hx; cases hx) (by simp)
        hone (RunsOk.single g hg)
    | cons g d rest hg hd hdd hrest =>
      rcases g with _ | ⟨a, as⟩
      · simp only [prependRun, if_pos hc]
        exact RunsOk.cons [] (c :: d) rest (by intro x hx; cases hx) (by simp)
          (forallIsDigit_cons hc hdd) hrest
      · simp only [prependRun, if_pos hc]
        exact RunsOk.cons [] [c] ((a :: as) :: d :: rest)
          (by intro x hx; cases hx) (by simp)
          hone (RunsOk.cons _ d rest hg hd hdd hrest)
  · have hc' : c.isDigit = false := by simpa using hc
    cases h with
    | single g hg =>
      simp only [prependRun, if_neg hc]
      exact RunsOk.single (c :: g) (forallNotDigit_cons hc' hg)
    | cons g d rest hg hd hdd hrest =>
      simp only [prependRun, if_neg hc]
      exact RunsOk.cons (c :: g) d rest (forallNotDigit_cons hc' hg) hd hdd hrest

theorem runsOk_splitRuns (l : List Char) : RunsOk (splitRuns l) := by
  induction l with
  | nil => exact RunsOk.single [] (by simp)
  | cons c cs ih => exact runsOk_prependRun c _ ih

theorem pySeg_of_gap (g : List Char) (hg : ∀ c ∈ g, c.isDigit = false) :
    pySeg g = Seg.str (String.mk (g.map lowerChar)) := by
  rcases g with _ | ⟨a, as⟩
  · simp [pySeg]
  · have ha : a.isDigit = false := hg a (by simp)
    have hcond : ¬(a :: as ≠ [] ∧ ((a :: as).all Char.isDigit = true)) := by
      rintro ⟨-, h2⟩
      rw [List.all_cons, ha] at h2
      simp at h2
    rw [pySeg, if_neg hcond]

theorem pySeg_of_run (d : List Char) (hd : d ≠ [])
    (hdd : ∀ c ∈ d, c.isDigit = true) :
    pySeg d = Seg.num (digitsVal d) := by
  have hall : (d.all Char.isDigit) = true := List.all_eq_true.mpr hdd
  rw [pySeg, if_pos ⟨hd, hall⟩]

theorem altKey_of_runsOk (rs : List (List Char)) (h : RunsOk rs) :
    AltKey (rs.map pySeg) := by
  induction h with
  | single g hg =>
    simp only [List.map_cons, List.map_nil, pySeg_of_gap g hg]
    exact AltKey.single _
  | cons g d rest hg hd hdd hrest ih =>
    simp only [List.map_cons, pySeg_of_gap g hg, pySeg_of_run d hd hdd]
    exact AltKey.cons _ _ _ ih

theorem altKey_natural_sort_key (s : String) : AltKey (natural_sort_key s) :=
  altKey_of_runsOk _ (runsOk_splitRuns s.data)

theorem pyCompareKey_isSome (k1 k2 : List Seg) (h1 : AltKey k1) (h2 : AltKey k2) :
    (pyCompareKey k1 k2).isSome = true := by
  induction h1 generalizing k2 with
  | single s =>
    cases h2 with
    | single t =>
      cases hc : compare s t <;> simp [pyCompareKey, pyCompareSeg, hc]
    | cons t n rest h =>
      cases hc : compare s t <;> simp [pyCompareKey, pyCompareSeg, hc]
  | cons s n rest h ih =>
    cases h2 with
    | single t =>
      cases hc : compare s t <;> simp [pyCompareKey, pyCompareSeg, hc]
    | cons t m rest2 h2' =>
      cases hc : compare s t with
      | lt => simp [pyCompareKey, pyCompareSeg, hc]
      | gt => simp [pyCompareKey, pyCompareSeg, hc]
      | eq =>
        cases hnm : compare n m with
        | lt => simp [pyCompareKey, pyCompareSeg, hc, hnm]
        | gt => simp [pyCompareKey, pyCompareSeg, hc, hnm]
        | eq => simpa [pyCompareKey, pyCompareSeg, hc, hnm] using ih _ h2'

theorem altKey_parity (k : List Seg) (h : AltKey k) :
    ∀ (i : Nat) (seg : Seg), k[i]? = some seg → (segIsStr seg = true ↔ i % 2 = 0) := by
  induction h with
  | single s =>
    intro i seg hi
    match i, hi with
    | 0, hi =>
      simp only [List.getElem?_cons_zero, Option.some.injEq] at hi
      subst hi
      simp [segIsStr]
    | n + 1, hi => simp at hi
  | cons s n rest h ih =>
    intro i seg hi
    match i, hi with
    | 0, hi =>
      simp only [List.getElem?_cons_zero, Option.some.injEq] at hi
      subst hi
      simp [segIsStr]
    | 1, hi =>
      simp only [List.getElem?_cons_succ, List.getElem?_cons_zero,
        Option.some.injEq] at hi
      subst hi
      simp [segIsStr]
    | m + 2, hi =>
      simp only [List.getElem?_cons_succ] at hi
      have := ih m seg hi
      rw [Nat.add_mod_right]
      exact this

/-! ### Theorems: case-insensitivity of the key -/

theorem isDigit_lowerChar (c : Char) : (lowerChar c).isDigit = c.isDigit := by
  unfold lowerChar
  split <;> first | rfl | decide

theorem lowerChar_cases (c : Char) :
    lowerChar c = c ∨
      lowerChar c ∈ (['a','b','c','d','e','f','g','h','i','j','k','l','m',
        'n','o','p','q','r','s','t','u','v','w','x','y','z'] : List Char) := by
  unfold lowerChar
  split <;> first | (left; rfl) | (right; decide)

theorem lowerChar_lower_fix (c : Char)
    (h : c ∈ (['a','b','c','d','e','f','g','h','i','j','k','l','m',
      'n','o','p','q','r','s','t','u','v','w','x','y','z'] : List Char)) :
    lowerChar c = c := by
  fin_cases h <;> decide

theorem lowerChar_idem (c : Char) : lowerChar (lowerChar c) = lowerChar c := by
  rcases lowerChar_cases c with h | h
  · rw [h]
    exact h
  · rw [lowerChar_lower_fix _ h]

theorem lowerChar_of_isDigit (c : Char) (h : c.isDigit = true) :
    lowerChar c = c := by
  unfold lowerChar
  split <;> first | rfl | (exfalso; revert h; decide)

theorem map_lowerChar_of_digits (d : List Char)
    (h : ∀ c ∈ d, c.isDigit = true) : d.map lowerChar = d := by
  induction d with
  | nil => rfl
  | cons a as ih =>
    rw [List.map_cons, lowerChar_of_isDigit a (h a (by simp)),
      ih (fun c hc => h c (List.mem_cons_of_mem a hc))]

theorem prependRun_map_lower (c : Char) (rs : List (List Char)) :
    prependRun (lowerChar c) (rs.map (List.map lowerChar)) =
      (prependRun c rs).map (List.map lowerChar) := by
  by_cases hc : c.isDigit = true
  · have hl : lowerChar c = c := lowerChar_of_isDigit c hc
    rw [hl]
    rcases rs with _ | ⟨r, rest⟩
    · simp [prependRun, if_pos hc, hl]
    · rcases r with _ | ⟨a, as⟩
      · rcases rest with _ | ⟨d, rest2⟩
        · simp [prependRun, if_pos hc, hl]
        · simp [prependRun, if_pos hc, hl]
      · simp [prependRun, if_pos hc, hl]
  · have hc2 : ¬((lowerChar c).isDigit = true) := by
      rw [isDigit_lowerChar]
      exact hc
    rcases rs with _ | ⟨r, rest⟩
    · simp [prependRun, if_neg hc, if_neg hc2]
    · rcases r with _ | ⟨a, as⟩
      · rcases rest with _ | ⟨d, rest2⟩
        · simp [prependRun, if_neg hc, if_neg hc2]
        · simp [prependRun, if_neg hc, if_neg hc2]
      · simp [prependRun, if_neg hc, if_neg hc2]

theorem splitRuns_map_lower (l : List Char) :
    splitRuns (l.map lowerChar) = (splitRuns l).map (List.map lowerChar) := by
  induction l with
  | nil => rfl
  | cons c cs ih =>
    rw [List.map_cons, splitRuns, splitRuns, ih, prependRun_map_lower]

theorem pySeg_map_lower (run : List Char) :
    pySeg (run.map lowerChar) = pySeg run := by
  by_cases h : run ≠ [] ∧ run.all Char.isDigit = true
  · rw [map_lowerChar_of_digits run (List.all_eq_true.mp h.2)]
  · have hfun : (fun c => (lowerChar c).isDigit) = fun c : Char => c.isDigit :=
      funext isDigit_lowerChar
    have hcond2 : ¬(run.map lowerChar ≠ [] ∧
        (run.map lowerChar).all Char.isDigit = true) := by
      rintro ⟨m1, m2⟩
      apply h
      refine ⟨?_, ?_⟩
      · intro he
        rw [he] at m1
        simp at m1
      · rw [List.all_map] at m2
        have : (Char.isDigit ∘ lowerChar) = Char.isDigit := funext isDigit_lowerChar
        rwa [this] at m2
    rw [pySeg, if_neg hcond2, pySeg, if_neg h, List.map_map]
    have : run.map (lowerChar ∘ lowerChar) = run.map lowerChar :=
      List.map_congr_left (fun a _ => lowerChar_idem a)
    rw [this]

theorem natural_sort_key_lower (s : String) :
    natural_sort_key (strLower s) = natural_sort_key s := by
  show (splitRuns (s.data.map lowerChar)).map pySeg = _
  rw [splitRuns_map_lower, List.map_map]
  exact List.map_congr_left (fun r _ => pySeg_map_lower r)

/-- C7.  The natural sort key orders embedded numbers by value
(`IMG2.jpg` sorts before `IMG10.jpg`), is case-insensitive (lowercasing
the input leaves the key unchanged), and ignores leading zeros in
numeric segments (`"02"` and `"2"` have equal keys). -/
theorem claim_C7_natural_sort_key :
    (∀ s : String, natural_sort_key (strLower s) = natural_sort_key s) ∧
    pyCompareKey (natural_sort_key "IMG2.jpg") (natural_sort_key "IMG10.jpg")
      = some Ordering.lt ∧
    natural_sort_key "img2.jpg" = natural_sort_key "IMG2.jpg" ∧
    natural_sort_key "02" = natural_sort_key "2" := by
  refine ⟨natural_sort_key_lower, ?_, ?_, ?_⟩ <;> decide

/-- C10.  Comparing two natural-sort keys is total — it never reaches a
mixed-type (`int` vs `str`) element comparison — because every key
alternates a string segment at even indices with an integer segment at
odd indices. -/
theorem claim_C10_compare_total :
    (∀ s t : String,
      (pyCompareKey (natural_sort_key s) (natural_sort_key t)).isSome = true) ∧
    (∀ (s : String) (i : Nat) (seg : Seg),
      (natural_sort_key s)[i]? = some seg → (segIsStr seg = true ↔ i % 2 = 0)) := by
  constructor
  · intro s t
    exact pyCompareKey_isSome _ _ (altKey_natural_sort_key s)
      (altKey_natural_sort_key t)
  · intro s i seg h
    exact altKey_parity _ (altKey_natural_sort_key s) i seg h

/-- Witness for C10 at concrete inputs. -/
theorem claim_C10_compare_total_witness :
    (pyCompareKey (natural_sort_key "a1b") (natural_sort_key "c")).isSome = true ∧
    (natural_sort_key "a1b")[1]? = some (Seg.num 1) ∧
    (segIsStr (Seg.num 1) = true ↔ 1 % 2 = 0) :=
  ⟨claim_C10_compare_total.1 "a1b" "c", by decide,
    claim_C10_compare_total.2 "a1b" 1 (Seg.num 1) (by decide)⟩

/-! ### Theorems: the filename pattern matcher -/

theorem takeWhile_all_append {p : Char → Bool} (a : List Char) (b : Char)
    (c : List Char) (ha : ∀ x ∈ a, p x = true) (hb : p b = false) :
    (a ++ b :: c).takeWhile p = a := by
  induction a with
  | nil => simp [List.takeWhile_cons, hb]
  | cons x xs ih =>
    have hx : p x = true := ha x (by simp)
    have ih' := ih (fun y hy => ha y (List.mem_cons_of_mem x hy))
    simp [List.takeWhile_cons, hx, ih']

theorem dropWhile_all_append {p : Char → Bool} (a : List Char) (b : Char)
    (c : List Char) (ha : ∀ x ∈ a, p x = true) (hb : p b = false) :
    (a ++ b :: c).dropWhile p = b :: c := by
  induction a with
  | nil => simp [List.dropWhile_cons, hb]
  | cons x xs ih =>
    have hx : p x = true := ha x (by simp)
    have ih' := ih (fun y hy => ha y (List.mem_cons_of_mem x hy))
    simp [List.dropWhile_cons, hx, ih']

theorem corrTag_cons : corrTag = '-' :: "corrected.".data := rfl

theorem corrTag_length : corrTag.length = 11 := rfl

theorem tailParse_complete (n e : List Char) (hn : n ≠ [])
    (hdig : ∀ c ∈ n, c.isDigit = true) (he : e ≠ []) :
    tailParse (n ++ corrTag ++ e) = some (n, e) := by
  have hdash : ('-').isDigit = false := by decide
  have htw : (n ++ corrTag ++ e).takeWhile Char.isDigit = n := by
    rw [corrTag_cons, List.append_assoc, List.cons_append]
    exact takeWhile_all_append n '-' _ hdig hdash
  have hdw : (n ++ corrTag ++ e).dropWhile Char.isDigit = corrTag ++ e := by
    rw [corrTag_cons, List.append_assoc, List.cons_append]
    exact dropWhile_all_append n '-' _ hdig hdash
  have htake : (corrTag ++ e).take 11 = corrTag := by
    rw [show (11 : Nat) = corrTag.length from rfl]
    exact List.take_left corrTag e
  have hlen : 11 < (corrTag ++ e).length := by
    rw [List.length_append, corrTag_length]
    have : 0 < e.length := List.length_pos.mpr he
    omega
  have hdrop : (corrTag ++ e).drop 11 = e := by
    rw [show (11 : Nat) = corrTag.length from rfl]
    exact List.drop_left corrTag e
  unfold tailParse
  rw [htw, hdw, if_neg hn, htake, hdrop, if_pos ⟨rfl, hlen⟩]

theorem tailParse_sound (t ds ext : List Char)
    (h : tailParse t = some (ds, ext)) :
    t = ds ++ corrTag ++ ext ∧ ds ≠ [] ∧ (∀ c ∈ ds, c.isDigit = true) ∧
      ext ≠ [] := by
  unfold tailParse at h
  by_cases h1 : t.takeWhile Char.isDigit = []
  · rw [if_pos h1] at h
    exact absurd h (by simp)
  · rw [if_neg h1] at h
    by_cases h2 : (t.dropWhile Char.isDigit).take 11 = corrTag ∧
        11 < (t.dropWhile Char.isDigit).length
    · rw [if_pos h2] at h
      obtain ⟨hds, hext⟩ : t.takeWhile Char.isDigit = ds ∧
          (t.dropWhile Char.isDigit).drop 11 = ext := by
        have h' := h
        simp only [Option.some.injEq, Prod.mk.injEq] at h'
        exact h'
      refine ⟨?_, ?_, ?_, ?_⟩
      · rw [← hds, ← hext, ← h2.1, List.append_assoc, List.take_append_drop,
          List.takeWhile_append_dropWhile]
      · rw [← hds]
        exact h1
      · intro c hc
        rw [← hds] at hc
        exact List.mem_takeWhile_imp hc
      · intro he
        rw [he] at hext
        have hl := congrArg List.length hext
        rw [List.length_drop] at hl
        simp only [List.length_nil] at hl
        omega
    · rw [if_neg h2] at h
      exact absurd h (by simp)

theorem tailParse_nonDigit_head (c : Char) (z : List Char)
    (hc : c.isDigit = false) : tailParse (c :: z) = none := by
  simp [tailParse, List.takeWhile_cons, hc]

theorem findDash_sound (cs : List Char) (m : Nat) :
    ∀ (i : Nat) (ds ext : List Char),
      findDash cs m = some (i, ds, ext) →
      1 ≤ i ∧ i ≤ m ∧ dashAt cs i = some (ds, ext) ∧
        ∀ j, i < j → j ≤ m → dashAt cs j = none := by
  induction m with
  | zero =>
    intro i ds ext h
    exact absurd h (by simp [findDash])
  | succ k ih =>
    intro i ds ext h
    rw [findDash] at h
    cases hd : dashAt cs (k + 1) with
    | some v =>
      obtain ⟨d1, d2⟩ := v
      rw [hd] at h
      simp only [Option.some.injEq, Prod.mk.injEq] at h
      obtain ⟨hi, hds, hext⟩ := h
      subst hi hds hext
      refine ⟨by omega, Nat.le_refl _, hd, ?_⟩
      intro j hj1 hj2
      omega
    | none =>
      rw [hd] at h
      obtain ⟨h1, h2, h3, h4⟩ := ih i ds ext h
      refine ⟨h1, by omega, h3, ?_⟩
      intro j hj1 hj2
      rcases Nat.lt_or_ge j (k + 1) with hlt | hge
      · exact h4 j hj1 (by omega)
      · have hj : j = k + 1 := by omega
        rw [hj]
        exact hd

theorem findDash_exact (cs : List Char) (i0 : Nat) (v1 v2 : List Char)
    (h0 : 1 ≤ i0) (hv : dashAt cs i0 = some (v1, v2))
    (hmax : ∀ j, i0 < j → dashAt cs j = none) :
    ∀ m, i0 ≤ m → findDash cs m = some (i0, v1, v2) := by
  intro m
  induction m with
  | zero => intro h; omega
  | succ k ih =>
    intro hm
    rw [findDash]
    rcases Nat.eq_or_lt_of_le hm with he | hlt
    · subst he
      rw [hv]
    · have hnone : dashAt cs (k + 1) = none := hmax (k + 1) (by omega)
      rw [hnone]
      exact ih (by omega)

theorem dashAt_shift (cs tail : List Char) (m : Nat)
    (hdrop : cs.drop m = tail) (k : Nat) :
    dashAt cs (m + k) = dashAt tail k := by
  have hget : cs[m + k]? = tail[k]? := by
    rw [← hdrop, List.getElem?_drop]
  have hdrop2 : cs.drop (m + k + 1) = tail.drop (k + 1) := by
    rw [← hdrop, List.drop_drop]
    congr 1
  unfold dashAt
  rw [hget, hdrop2]

theorem corrTag_mid_no_dash (d : Nat) (h1 : 1 ≤ d) (h2 : d ≤ 10) :
    ¬(corrTag[d]? = some '-') := by
  interval_cases d <;> decide

theorem rest_no_dash (n e : List Char) (hdig : ∀ c ∈ n, c.isDigit = true)
    (hgood : ∀ j, dashAt e j = none) :
    ∀ k, dashAt (n ++ corrTag ++ e) k = none := by
  intro k
  rcases Nat.lt_or_ge k n.length with hk | hk
  · -- inside the digit run: the character is a digit, not '-'
    unfold dashAt
    rw [if_neg]
    intro hcontra
    rw [List.append_assoc, List.getElem?_append_left hk] at hcontra
    have hmem : '-' ∈ n := List.getElem?_mem hcontra
    have := hdig '-' hmem
    exact absurd this (by decide)
  · rcases Nat.lt_or_ge k (n.length + 11) with hk2 | hk2
    · rcases Nat.eq_or_lt_of_le hk with he | hlt
      · -- exactly at the '-' of "-corrected.": the tail begins with 'c'
        unfold dashAt
        have hget : (n ++ corrTag ++ e)[k]? = some '-' := by
          rw [List.append_assoc, ← he, List.getElem?_append_right (Nat.le_refl _)]
          simp [corrTag_cons]
        rw [if_pos hget]
        have hdropk : (n ++ corrTag ++ e).drop (k + 1) =
            "corrected.".data ++ e := by
          rw [List.append_assoc, ← he, corrTag_cons, List.cons_append,
            List.drop_append 1]
          rfl
        rw [hdropk]
        exact tailParse_nonDigit_head 'c' _ (by decide)
      · -- inside "corrected.": no character there is '-'
        unfold dashAt
        rw [if_neg]
        intro hcontra
        have hkk : k = n.length + (k - n.length) := by omega
        rw [List.append_assoc, hkk,
          List.getElem?_append_right (by omega : n.length ≤ n.length + (k - n.length))] at hcontra
        simp only [Nat.add_sub_cancel_left] at hcontra
        rw [List.getElem?_append_left (by
          rw [corrTag_length]; omega : k - n.length < corrTag.length)] at hcontra
        exact corrTag_mid_no_dash (k - n.length) (by omega) (by omega) hcontra
    · -- inside the extension: excluded by `hgood`
      have hdropext : (n ++ corrTag ++ e).drop (n.length + 11) = e := by
        have hlen : (n ++ corrTag).length = n.length + 11 := by
          rw [List.length_append, corrTag_length]
        rw [← hlen]
        exact List.drop_left _ e
      have hk3 : k = (n.length + 11) + (k - n.length - 11) := by omega
      rw [hk3, dashAt_shift _ e _ hdropext]
      exact hgood _

theorem parseCorrected_sound (s p num ext : String)
    (h : parseCorrected s = some (p, num, ext)) :
    s.data = p.data ++ '-' :: (num.data ++ corrTag ++ ext.data) ∧
      p.data ≠ [] ∧ num.data ≠ [] ∧ (∀ c ∈ num.data, c.isDigit = true) ∧
      ext.data ≠ [] ∧ (∀ j, dashAt ext.data j = none) := by
  unfold parseCorrected at h
  cases hf : findDash s.data (s.data.length - 1) with
  | none =>
    rw [hf] at h
    exact absurd h (by simp)
  | some w =>
    obtain ⟨i, ds, et⟩ := w
    rw [hf] at h
    simp only [Option.some.injEq, Prod.mk.injEq] at h
    obtain ⟨hp, hnum, hext⟩ := h
    obtain ⟨h1, h2, h3, h4⟩ := findDash_sound s.data _ i ds et hf
    have hpd : p.data = s.data.take i := by rw [← hp]
    have hnd : num.data = ds := by rw [← hnum]
    have hed : ext.data = et := by rw [← hext]
    unfold dashAt at h3
    by_cases hdash : s.data[i]? = some '-'
    · rw [if_pos hdash] at h3
      obtain ⟨hdecomp, hds_ne, hds_dig, het_ne⟩ := tailParse_sound _ _ _ h3
      have hilt : i < s.data.length := by
        rcases List.getElem?_eq_some.mp hdash with ⟨hh, -⟩
        exact hh
      have hsplit : s.data = s.data.take i ++ '-' :: (ds ++ corrTag ++ et) := by
        conv_lhs => rw [← List.take_append_drop i s.data]
        congr 1
        rw [List.drop_eq_getElem_cons hilt, hdecomp]
        congr 1
        obtain ⟨hh, hv⟩ := List.getElem?_eq_some.mp hdash
        exact hv
      have hlen_total : s.data.length = i + 1 + (ds.length + 11 + et.length) := by
        have := congrArg List.length hsplit
        rw [List.length_append, List.length_take, List.length_cons,
          List.length_append, List.length_append, corrTag_length] at this
        omega
      refine ⟨?_, ?_, ?_, ?_, ?_, ?_⟩
      · rw [hpd, hnd, hed]
        exact hsplit
      · rw [hpd]
        intro hnil
        rcases List.take_eq_nil_iff.mp hnil with h0 | h0
        · omega
        · rw [h0] at hilt
          simp at hilt
      · rw [hnd]; exact hds_ne
      · rw [hnd]; exact hds_dig
      · rw [hed]; exact het_ne
      · rw [hed]
        intro j
        cases hda : dashAt et j with
        | none => rfl
        | some w' =>
          exfalso
          have hjlt : j < et.length := by
            unfold dashAt at hda
            by_cases hjj : et[j]? = some '-'
            · rcases List.getElem?_eq_some.mp hjj with ⟨hh, -⟩
              exact hh
            · rw [if_neg hjj] at hda
              exact absurd hda (by simp)
          have hdropi : s.data.drop (i + 1) = ds ++ corrTag ++ et := hdecomp
          have hdropfar : s.data.drop (i + 1 + (ds.length + 11)) = et := by
            rw [← List.drop_drop (ds.length + 11) (i + 1) s.data, hdropi]
            have hlen2 : (ds ++ corrTag).length = ds.length + 11 := by
              rw [List.length_append, corrTag_length]
            rw [← hlen2]
            exact List.drop_left _ _
          have hshift := dashAt_shift s.data et (i + 1 + (ds.length + 11)) hdropfar j
          have hJ := h4 (i + 1 + (ds.length + 11) + j) (by omega) (by omega)
          rw [hshift] at hJ
          rw [hJ] at hda
          exact absurd hda (by simp)
    · rw [if_neg hdash] at h3
      exact absurd h3 (by simp)

theorem parseCorrected_complete (s : String) (P n e : List Char)
    (hs : s.data = P ++ '-' :: (n ++ corrTag ++ e))
    (hP : P ≠ []) (hn : n ≠ []) (hdig : ∀ c ∈ n, c.isDigit = true)
    (he : e ≠ []) (hgood : ∀ j, dashAt e j = none) :
    parseCorrected s = some (String.mk P, String.mk n, String.mk e) := by
  have hdropP : (P ++ '-' :: (n ++ corrTag ++ e)).drop (P.length + 1) =
      n ++ corrTag ++ e := by
    rw [List.drop_append 1]
    rfl
  have hgetP : (P ++ '-' :: (n ++ corrTag ++ e))[P.length]? = some '-' := by
    rw [List.getElem?_append_right (Nat.le_refl _)]
    simp
  have hdash0 : dashAt (P ++ '-' :: (n ++ corrTag ++ e)) P.length =
      some (n, e) := by
    unfold dashAt
    rw [if_pos hgetP, hdropP]
    exact tailParse_complete n e hn hdig he
  have hmax : ∀ j, P.length < j →
      dashAt (P ++ '-' :: (n ++ corrTag ++ e)) j = none := by
    intro j hj
    have hjk : j = (P.length + 1) + (j - P.length - 1) := by omega
    rw [hjk, dashAt_shift _ (n ++ corrTag ++ e) (P.length + 1) hdropP]
    exact rest_no_dash n e hdig hgood _
  have hPlen : 1 ≤ P.length := List.length_pos.mpr hP
  have hlen : (P ++ '-' :: (n ++ corrTag ++ e)).length =
      P.length + 1 + (n.length + 11 + e.length) := by
    rw [List.length_append, List.length_cons, List.length_append,
      List.length_append, corrTag_length]
    omega
  have hm : P.length ≤ (P ++ '-' :: (n ++ corrTag ++ e)).length - 1 := by
    omega
  have hfd := findDash_exact _ P.length n e hPlen hdash0 hmax _ hm
  unfold parseCorrected
  rw [hs]
  simp only [hfd]
  rw [List.take_left]

/-! ### Theorems: the side-A dictionary and B-side classification -/

theorem mkCorrectedName_data (p num ext : String) :
    (mkCorrectedName p num ext).data =
      p.data ++ '-' :: (num.data ++ corrTag ++ ext.data) := by
  unfold mkCorrectedName
  rw [String.data_append, String.data_append, String.data_append,
    String.data_append]
  simp only [List.append_assoc]
  rfl

theorem mem_dictInsert (m : List (String × SideAInfo)) (k : String)
    (v : SideAInfo) (kv : String × SideAInfo) (h : kv ∈ dictInsert m k v) :
    kv ∈ m ∨ kv = (k, v) := by
  unfold dictInsert at h
  by_cases hany : m.any (fun kv => kv.1 = k)
  · rw [if_pos hany] at h
    rcases List.mem_map.mp h with ⟨kv0, hkv0, heq⟩
    by_cases hk : kv0.1 = k
    · right
      rw [← heq, if_pos hk]
    · left
      rw [← heq, if_neg hk]
      exact hkv0
  · rw [if_neg hany] at h
    rcases List.mem_append.mp h with h1 | h1
    · left; exact h1
    · right; simpa using h1

theorem foldl_buildStep_wf (dirA : List String) :
    ∀ m, FaWf m → FaWf (dirA.foldl buildStep m) := by
  induction dirA with
  | nil => intro m hm; exact hm
  | cons fn rest ih =>
    intro m hm
    rw [List.foldl_cons]
    apply ih
    unfold buildStep
    cases hp : parseCorrected fn with
    | none => exact hm
    | some t =>
      obtain ⟨p, num, ext⟩ := t
      intro kv hkv
      rcases mem_dictInsert _ _ _ _ hkv with h1 | h1
      · exact hm kv h1
      · rw [h1]
        exact hp

theorem buildFilesA_wf (dirA : List String) : FaWf (buildFilesA dirA) :=
  foldl_buildStep_wf dirA [] (by intro kv hkv; simp at hkv)

theorem dictFind_mem (fa : List (String × SideAInfo)) (k : String)
    (info : SideAInfo) (h : dictFind fa k = some info) : (k, info) ∈ fa := by
  induction fa with
  | nil => simp [dictFind] at h
  | cons kv rest ih =>
    rw [dictFind] at h
    by_cases hk : kv.1 = k
    · rw [if_pos hk] at h
      have h2 : kv.2 = info := by
        simpa using h
      have h3 : kv = (k, info) := by
        rw [← hk, ← h2]
      rw [← h3]
      exact List.mem_cons_self kv rest
    · rw [if_neg hk] at h
      exact List.mem_cons_of_mem _ (ih h)

theorem classifyB_rename_target (fa : List (String × SideAInfo))
    (hwf : FaWf fa) (fn tgt : String)
    (h : classifyB fa fn = BClass.rename tgt) :
    classifyB fa tgt = BClass.same ∧ fn ≠ tgt := by
  unfold classifyB at h
  cases hp : parseCorrected fn with
  | none =>
    rw [hp] at h
    simp at h
  | some t =>
    obtain ⟨p, num, ext⟩ := t
    simp only [hp] at h
    cases hf : dictFind fa num with
    | none =>
      simp only [hf] at h
      simp at h
    | some info =>
      simp only [hf] at h
      by_cases hpp : p = info.pfx
      · rw [if_pos hpp] at h
        simp at h
      · rw [if_neg hpp] at h
        have htgt : tgt = mkCorrectedName info.pfx num ext := by
          simpa using h.symm
        obtain ⟨hsplit, hPne, hNne, hNdig, hEne, hEgood⟩ :=
          parseCorrected_sound fn p num ext hp
        have hinfo := hwf (num, info) (dictFind_mem fa num info hf)
        obtain ⟨hsplit2, hPne2, h3, h4, h5, h6⟩ :=
          parseCorrected_sound info.fname info.pfx num info.ext hinfo
        have hparse2 : parseCorrected (mkCorrectedName info.pfx num ext) =
            some (String.mk info.pfx.data, String.mk num.data,
              String.mk ext.data) :=
          parseCorrected_complete _ info.pfx.data num.data ext.data
            (mkCorrectedName_data info.pfx num ext) hPne2 hNne hNdig hEne hEgood
        have hmk : ∀ t : String, String.mk t.data = t := fun t => rfl
        rw [hmk, hmk, hmk] at hparse2
        constructor
        · rw [htgt]
          unfold classifyB
          simp [hparse2, hf]
        · intro hfn
          rw [hfn, htgt] at hp
          rw [hparse2] at hp
          have : p = info.pfx := by
            simpa using congrArg (fun o => o.map Prod.fst) hp.symm
          exact hpp this

/-! ### Theorems: one step of the directory-B loop -/

theorem stepB_not_mem (fa : List (String × SideAInfo)) (st : BState)
    (fn : String) (h : fn ∉ st.dirB) : stepB fa st fn = st := by
  unfold stepB
  rw [if_neg h]

theorem stepB_same (fa : List (String × SideAInfo)) (st : BState)
    (fn : String) (hmem : fn ∈ st.dirB) (h : classifyB fa fn = BClass.same) :
    stepB fa st fn = { st with skipped := st.skipped + 1 } := by
  unfold stepB
  rw [if_pos hmem]
  unfold classifyB at h
  cases hp : parseCorrected fn with
  | none =>
    rw [hp] at h
    simp at h
  | some t =>
    obtain ⟨p, num, ext⟩ := t
    simp only [hp] at h ⊢
    cases hf : dictFind fa num with
    | none =>
      simp only [hf] at h
      simp at h
    | some info =>
      simp only [hf] at h ⊢
      by_cases hpp : p = info.pfx
      · rw [if_pos hpp]
      · rw [if_neg hpp] at h
        simp at h

theorem stepB_rename (fa : List (String × SideAInfo)) (st : BState)
    (fn tgt : String) (hmem : fn ∈ st.dirB)
    (h : classifyB fa fn = BClass.rename tgt) :
    stepB fa st fn =
      { st with
          dirB := renameOver st.dirB fn tgt,
          renamed := st.renamed + 1 } := by
  unfold stepB
  rw [if_pos hmem]
  unfold classifyB at h
  cases hp : parseCorrected fn with
  | none =>
    rw [hp] at h
    simp at h
  | some t =>
    obtain ⟨p, num, ext⟩ := t
    simp only [hp] at h ⊢
    cases hf : dictFind fa num with
    | none =>
      simp only [hf] at h
      simp at h
    | some info =>
      simp only [hf] at h ⊢
      by_cases hpp : p = info.pfx
      · rw [if_pos hpp] at h
        simp at h
      · rw [if_neg hpp] at h ⊢
        have htgt : mkCorrectedName info.pfx num ext = tgt := by
          simpa using h
        rw [htgt]

theorem stepB_noKey (fa : List (String × SideAInfo)) (st : BState)
    (fn : String) (hmem : fn ∈ st.dirB) (h : classifyB fa fn = BClass.noKey) :
    stepB fa st fn = { st with unmatched := st.unmatched ++ [fn] } := by
  unfold stepB
  rw [if_pos hmem]
  unfold classifyB at h
  cases hp : parseCorrected fn with
  | none =>
    rw [hp] at h
    simp at h
  | some t =>
    obtain ⟨p, num, ext⟩ := t
    simp only [hp] at h ⊢
    cases hf : dictFind fa num with
    | none => simp only [hf]
    | some info =>
      simp only [hf] at h
      by_cases hpp : p = info.pfx
      · rw [if_pos hpp] at h
        simp at h
      · rw [if_neg hpp] at h
        simp at h

theorem stepB_noPat (fa : List (String × SideAInfo)) (st : BState)
    (fn : String) (hmem : fn ∈ st.dirB) (h : classifyB fa fn = BClass.noPat) :
    stepB fa st fn = { st with badPattern := st.badPattern ++ [fn] } := by
  unfold stepB
  rw [if_pos hmem]
  unfold classifyB at h
  cases hp : parseCorrected fn with
  | none => rfl
  | some t =>
    obtain ⟨p, num, ext⟩ := t
    simp only [hp] at h
    cases hf : dictFind fa num with
    | none =>
      simp only [hf] at h
      simp at h
    | some info =>
      simp only [hf] at h
      by_cases hpp : p = info.pfx
      · rw [if_pos hpp] at h
        simp at h
      · rw [if_neg hpp] at h
        simp at h

/-! ### Theorems: `renameOver` -/

theorem renameOver_nodup (d : List String) (old new : String)
    (h : d.Nodup) : (renameOver d old new).Nodup := by
  unfold renameOver
  apply List.Nodup.map_on ?_ (h.filter _)
  intro x hx y hy hxy
  have hxne : x ≠ new := by simpa using (List.mem_filter.mp hx).2
  have hyne : y ≠ new := by simpa using (List.mem_filter.mp hy).2
  by_cases hxo : x = old
  · by_cases hyo : y = old
    · rw [hxo, hyo]
    · rw [if_pos hxo, if_neg hyo] at hxy
      exact absurd hxy.symm hyne
  · by_cases hyo : y = old
    · rw [if_neg hxo, if_pos hyo] at hxy
      exact absurd hxy hxne
    · rw [if_neg hxo, if_neg hyo] at hxy
      exact hxy

theorem mem_renameOver_self (d : List String) (old new : String)
    (hmem : old ∈ d) (hne : old ≠ new) : new ∈ renameOver d old new := by
  unfold renameOver
  apply List.mem_map.mpr
  refine ⟨old, ?_, by rw [if_pos rfl]⟩
  exact List.mem_filter.mpr ⟨hmem, by simpa using hne⟩

theorem mem_renameOver_other (d : List String) (old new x : String)
    (hx : x ∈ d) (hxo : x ≠ old) (hxn : x ≠ new) :
    x ∈ renameOver d old new := by
  unfold renameOver
  apply List.mem_map.mpr
  exact ⟨x, List.mem_filter.mpr ⟨hx, by simpa using hxn⟩, by rw [if_neg hxo]⟩

theorem mem_renameOver_imp (d : List String) (old new x : String)
    (h : x ∈ renameOver d old new) :
    x = new ∨ (x ∈ d ∧ x ≠ new ∧ x ≠ old) := by
  unfold renameOver at h
  rcases List.mem_map.mp h with ⟨y, hy, heq⟩
  have hyd := (List.mem_filter.mp hy).1
  have hyn : y ≠ new := by simpa using (List.mem_filter.mp hy).2
  by_cases hyo : y = old
  · left
    rw [← heq, if_pos hyo]
  · right
    rw [← heq, if_neg hyo]
    exact ⟨hyd, hyn, hyo⟩

/-! ### Theorems: the whole directory-B loop

The invariant-carrying induction over the `os.listdir(dir_b)` snapshot.
A name is called stable when its classification performs no rename;
renames replace one unstable snapshot name by its stable target, so at
the end of the loop every name in the directory is stable. -/

theorem runB_spec (fa : List (String × SideAInfo)) (hwf : FaWf fa) :
    ∀ (rem : List String) (st : BState),
      st.dirB.Nodup → rem.Nodup →
      (∀ fn ∈ rem, fn ∈ st.dirB) →
      (∀ x ∈ st.dirB, isRenameB fa x = false ∨ x ∈ rem) →
      (runB fa st rem).dirB.Nodup ∧
      (∀ x ∈ (runB fa st rem).dirB, isRenameB fa x = false) ∧
      (runB fa st rem).skipped = st.skipped + rem.countP (isSameB fa) ∧
      (runB fa st rem).renamed = st.renamed + rem.countP (isRenameB fa) ∧
      (runB fa st rem).errors = st.errors ∧
      (runB fa st rem).unmatched = st.unmatched ++ rem.filter (isNoKeyB fa) ∧
      (∀ x ∈ st.dirB, isRenameB fa x = false → x ∈ (runB fa st rem).dirB) ∧
      (∀ fn tgt, fn ∈ rem → classifyB fa fn = BClass.rename tgt →
        tgt ∈ (runB fa st rem).dirB) ∧
      (rem.countP (isRenameB fa) = 0 → (runB fa st rem).dirB = st.dirB) := by
  intro rem
  induction rem with
  | nil =>
    intro st h1 h2 h3 h4
    refine ⟨h1, ?_, by simp [runB], by simp [runB], by simp [runB],
      by simp [runB], ?_, ?_, ?_⟩
    · intro x hx
      rcases h4 x hx with h | h
      · exact h
      · simp at h
    · intro x hx _
      exact hx
    · intro fn tgt hfn
      simp at hfn
    · intro _
      rfl
  | cons fn rest ih =>
    intro st h1 h2 h3 h4
    rw [runB]
    have hmem : fn ∈ st.dirB := h3 fn (by simp)
    have hfnrest : fn ∉ rest := (List.nodup_cons.mp h2).1
    have hrestnd : rest.Nodup := (List.nodup_cons.mp h2).2
    cases hcl : classifyB fa fn with
    | same =>
      have hsame : isSameB fa fn = true := by simp [isSameB, hcl]
      have hren : isRenameB fa fn = false := by simp [isRenameB, hcl]
      have hnok : isNoKeyB fa fn = false := by simp [isNoKeyB, hcl]
      rw [stepB_same fa st fn hmem hcl]
      have ih' := ih { st with skipped := st.skipped + 1 } h1 hrestnd
        (fun g hg => h3 g (List.mem_cons_of_mem fn hg))
        (by
          intro x hx
          rcases h4 x hx with h | h
          · exact Or.inl h
          · rcases List.mem_cons.mp h with h | h
            · subst h
              exact Or.inl hren
            · exact Or.inr h)
      obtain ⟨i1, i2, i3, i4, i5, i6, i7, i8, i9⟩ := ih'
      refine ⟨i1, i2, ?_, ?_, i5, ?_, i7, ?_, ?_⟩
      · rw [i3, List.countP_cons, hsame]
        simp
        all_goals omega
      · rw [i4, List.countP_cons, hren]
        simp
        all_goals omega
      · rw [i6, List.filter_cons, hnok]
        simp
      · intro g tgt hg hgt
        rcases List.mem_cons.mp hg with h | h
        · subst h
          rw [hcl] at hgt
          simp at hgt
        · exact i8 g tgt h hgt
      · intro h0
        rw [List.countP_cons, hren, if_neg (by decide)] at h0
        rw [Nat.add_zero] at h0
        exact i9 h0
    | noKey =>
      have hsame : isSameB fa fn = false := by simp [isSameB, hcl]
      have hren : isRenameB fa fn = false := by simp [isRenameB, hcl]
      have hnok : isNoKeyB fa fn = true := by simp [isNoKeyB, hcl]
      rw [stepB_noKey fa st fn hmem hcl]
      have ih' := ih { st with unmatched := st.unmatched ++ [fn] } h1 hrestnd
        (fun g hg => h3 g (List.mem_cons_of_mem fn hg))
        (by
          intro x hx
          rcases h4 x hx with h | h
          · exact Or.inl h
          · rcases List.mem_cons.mp h with h | h
            · subst h
              exact Or.inl hren
            · exact Or.inr h)
      obtain ⟨i1, i2, i3, i4, i5, i6, i7, i8, i9⟩ := ih'
      refine ⟨i1, i2, ?_, ?_, i5, ?_, i7, ?_, ?_⟩
      · rw [i3, List.countP_cons, hsame]
        simp
        all_goals omega
      · rw [i4, List.countP_cons, hren]
        simp
        all_goals omega
      · rw [i6, List.filter_cons, hnok]
        simp
      · intro g tgt hg hgt
        rcases List.mem_cons.mp hg with h | h
        · subst h
          rw [hcl] at hgt
          simp at hgt
        · exact i8 g tgt h hgt
      · intro h0
        rw [List.countP_cons, hren, if_neg (by decide)] at h0
        rw [Nat.add_zero] at h0
        exact i9 h0
    | noPat =>
      have hsame : isSameB fa fn = false := by simp [isSameB, hcl]
      have hren : isRenameB fa fn = false := by simp [isRenameB, hcl]
      have hnok : isNoKeyB fa fn = false := by simp [isNoKeyB, hcl]
      rw [stepB_noPat fa st fn hmem hcl]
      have ih' := ih { st with badPattern := st.badPattern ++ [fn] } h1 hrestnd
        (fun g hg => h3 g (List.mem_cons_of_mem fn hg))
        (by
          intro x hx
          rcases h4 x hx with h | h
          · exact Or.inl h
          · rcases List.mem_cons.mp h with h | h
            · subst h
              exact Or.inl hren
            · exact Or.inr h)
      obtain ⟨i1, i2, i3, i4, i5, i6, i7, i8, i9⟩ := ih'
      refine ⟨i1, i2, ?_, ?_, i5, ?_, i7, ?_, ?_⟩
      · rw [i3, List.countP_cons, hsame]
        simp
        all_goals omega
      · rw [i4, List.countP_cons, hren]
        simp
        all_goals omega
      · rw [i6, List.filter_cons, hnok]
        simp
      · intro g tgt hg hgt
        rcases List.mem_cons.mp hg with h | h
        · subst h
          rw [hcl] at hgt
          simp at hgt
        · exact i8 g tgt h hgt
      · intro h0
        rw [List.countP_cons, hren, if_neg (by decide)] at h0
        rw [Nat.add_zero] at h0
        exact i9 h0
    | rename tgt =>
      have hsame : isSameB fa fn = false := by simp [isSameB, hcl]
      have hren : isRenameB fa fn = true := by simp [isRenameB, hcl]
      have hnok : isNoKeyB fa fn = false := by simp [isNoKeyB, hcl]
      obtain ⟨htgt_same, hne⟩ := classifyB_rename_target fa hwf fn tgt hcl
      have htgt_stable : isRenameB fa tgt = false := by
        simp [isRenameB, htgt_same]
      rw [stepB_rename fa st fn tgt hmem hcl]
      have hnodup2 : (renameOver st.dirB fn tgt).Nodup :=
        renameOver_nodup st.dirB fn tgt h1
      have hmem3 : ∀ g ∈ rest, g ∈ renameOver st.dirB fn tgt := by
        intro g hg
        have hgo : g ≠ fn := by
          intro hgeq
          exact hfnrest (hgeq ▸ hg)
        by_cases hgn : g = tgt
        · rw [hgn]
          exact mem_renameOver_self st.dirB fn tgt hmem hne
        · exact mem_renameOver_other st.dirB fn tgt g
            (h3 g (List.mem_cons_of_mem fn hg)) hgo hgn
      have hstab3 : ∀ x ∈ renameOver st.dirB fn tgt,
          isRenameB fa x = false ∨ x ∈ rest := by
        intro x hx
        rcases mem_renameOver_imp st.dirB fn tgt x hx with h | ⟨hxd, hxn, hxo⟩
        · subst h
          exact Or.inl htgt_stable
        · rcases h4 x hxd with h | h
          · exact Or.inl h
          · rcases List.mem_cons.mp h with h | h
            · exact absurd h hxo
            · exact Or.inr h
      have ih' := ih
        { st with
            dirB := renameOver st.dirB fn tgt,
            renamed := st.renamed + 1 } hnodup2 hrestnd hmem3 hstab3
      obtain ⟨i1, i2, i3, i4, i5, i6, i7, i8, i9⟩ := ih'
      refine ⟨i1, i2, ?_, ?_, i5, ?_, ?_, ?_, ?_⟩
      · rw [i3, List.countP_cons, hsame]
        simp
        all_goals omega
      · rw [i4, List.countP_cons, hren]
        simp
        all_goals omega
      · rw [i6, List.filter_cons, hnok]
        simp
      · -- stable names of the pre-step directory survive to the end
        intro x hx hxstable
        have hxo : x ≠ fn := by
          intro hxeq
          rw [hxeq, hren] at hxstable
          exact absurd hxstable (by simp)
        by_cases hxn : x = tgt
        · apply i7
          · rw [hxn]
            exact mem_renameOver_self st.dirB fn tgt hmem hne
          · rw [hxn]
            exact htgt_stable
        · apply i7
          · exact mem_renameOver_other st.dirB fn tgt x hx hxo hxn
          · exact hxstable
      · intro g tgt' hg hgt
        rcases List.mem_cons.mp hg with h | h
        · subst h
          rw [hcl] at hgt
          have : tgt' = tgt := by
            simpa using hgt.symm
          subst this
          apply i7
          · exact mem_renameOver_self st.dirB g tgt' hmem hne
          · exact htgt_stable
        · exact i8 g tgt' h hgt
      · intro h0
        rw [List.countP_cons, hren, if_pos rfl] at h0
        omega

theorem classify_of_isSameB (fa : List (String × SideAInfo)) (fn : String)
    (h : isSameB fa fn = true) : classifyB fa fn = BClass.same := by
  unfold isSameB at h
  cases hc : classifyB fa fn <;> simp only [hc] at h
  case same => rfl
  all_goals simp at h

theorem classify_of_isNoKeyB (fa : List (String × SideAInfo)) (fn : String)
    (h : isNoKeyB fa fn = true) : classifyB fa fn = BClass.noKey := by
  unfold isNoKeyB at h
  cases hc : classifyB fa fn <;> simp only [hc] at h
  case noKey => rfl
  all_goals simp at h

/-- C1 counterexample.  With directory A holding only `notes.txt` —
no file matches the `prefix-number-corrected.extension` template, so
side A's mapping is empty — and directory B holding
`hike-099-corrected.jpg`, a B-side file whose number `099` has no
match in A, the run returns early (`a16spatial.py` lines 313–315)
without examining directory B at all: the B-side file is neither
reported as unmatched nor renamed, no summary is produced, refuting
the claim's unconditional conjunct that every B-side file whose number
has no match in A is reported. -/
theorem claim_C1_counterexample :
    parseCorrected "hike-099-corrected.jpg" = some ("hike", "099", "jpg") ∧
    buildFilesA ["notes.txt"] = [] ∧
    match_and_rename_files ["notes.txt"] ["hike-099-corrected.jpg"] =
      none := by decide

/-- C1, amended.  When side A's mapping is empty the run returns early
and no B-side file is examined or reported.  Otherwise — directory B's
listing having distinct names, as a real directory does — the run
completes (never fatally), the skipped count is exactly the number of
B files whose number is in the mapping with an already-equal group 1,
the renamed count is exactly the number of B files whose number is in
the mapping with a different group 1, B files whose number has no key
are reported in order and remain in place under their own name, files
already paired stay present, and every mismatching B file's rename
target (side A's group 1, the same number, `-corrected`, B's own
extension) is present in the final directory. -/
theorem claim_C1_identifier_pairing :
    (∀ dirA dirB : List String, buildFilesA dirA = [] →
      match_and_rename_files dirA dirB = none) ∧
    (∀ dirA dirB : List String, dirB.Nodup → buildFilesA dirA ≠ [] →
      ∃ r, match_and_rename_files dirA dirB = some r ∧
        r.skipped = dirB.countP (isSameB (buildFilesA dirA)) ∧
        r.renamed = dirB.countP (isRenameB (buildFilesA dirA)) ∧
        r.errors = 0 ∧
        r.unmatched = dirB.filter (isNoKeyB (buildFilesA dirA)) ∧
        (∀ fn ∈ dirB, isSameB (buildFilesA dirA) fn = true → fn ∈ r.dirB) ∧
        (∀ fn ∈ dirB, isNoKeyB (buildFilesA dirA) fn = true → fn ∈ r.dirB) ∧
        (∀ fn p num ext info, fn ∈ dirB →
          parseCorrected fn = some (p, num, ext) →
          dictFind (buildFilesA dirA) num = some info → p ≠ info.pfx →
          mkCorrectedName info.pfx num ext ∈ r.dirB)) := by
  constructor
  · intro dirA dirB hA
    unfold match_and_rename_files
    rw [if_pos hA]
  · intro dirA dirB hB hA
    refine ⟨runB (buildFilesA dirA) ⟨dirB, 0, 0, 0, [], []⟩ dirB, ?_, ?_⟩
    · unfold match_and_rename_files
      rw [if_neg hA]
    · obtain ⟨i1, i2, i3, i4, i5, i6, i7, i8, i9⟩ :=
        runB_spec (buildFilesA dirA) (buildFilesA_wf dirA) dirB
          ⟨dirB, 0, 0, 0, [], []⟩ hB hB (fun fn h => h) (fun x hx => Or.inr hx)
      refine ⟨by rw [i3]; simp, by rw [i4]; simp, by rw [i5], by rw [i6]; simp,
        ?_, ?_, ?_⟩
      · intro fn hfn hsame
        exact i7 fn hfn
          (by simp [isRenameB, classify_of_isSameB _ _ hsame])
      · intro fn hfn hnok
        exact i7 fn hfn
          (by simp [isRenameB, classify_of_isNoKeyB _ _ hnok])
      · intro fn p num ext info hfn hparse hfind hne
        apply i8 fn (mkCorrectedName info.pfx num ext) hfn
        unfold classifyB
        simp only [hparse, hfind]
        rw [if_neg hne]

/-- Witness for the amended C1: the early return on an A directory
with no matching file, and the spec's own example — A holds
`trip-007-corrected.jpg`, B holds `hike-007-corrected.jpg` (renamed)
and `hike-099-corrected.jpg` (unmatched, reported, left in place). -/
theorem claim_C1_identifier_pairing_witness :
    (buildFilesA ["readme.md"] = [] ∧
      match_and_rename_files ["readme.md"] ["x-1-corrected.jpg"] = none) ∧
    (["hike-007-corrected.jpg", "hike-099-corrected.jpg"] :
      List String).Nodup ∧
    buildFilesA ["trip-007-corrected.jpg"] ≠ [] ∧
    ∃ r, match_and_rename_files ["trip-007-corrected.jpg"]
        ["hike-007-corrected.jpg", "hike-099-corrected.jpg"] = some r ∧
      r.renamed = 1 ∧ r.skipped = 0 ∧ r.errors = 0 ∧
      r.unmatched = ["hike-099-corrected.jpg"] ∧
      "hike-099-corrected.jpg" ∈ r.dirB ∧
      "trip-007-corrected.jpg" ∈ r.dirB := by
  refine ⟨⟨by decide, claim_C1_identifier_pairing.1 ["readme.md"]
    ["x-1-corrected.jpg"] (by decide)⟩, by decide, by decide, ?_⟩
  obtain ⟨r, h1, h2, h3, h4, h5, h6, h7, h8⟩ :=
    claim_C1_identifier_pairing.2 ["trip-007-corrected.jpg"]
      ["hike-007-corrected.jpg", "hike-099-corrected.jpg"]
      (by decide) (by decide)
  refine ⟨r, h1, by rw [h3]; decide, by rw [h2]; decide, h4,
    by rw [h5]; decide, ?_, ?_⟩
  · exact h7 "hike-099-corrected.jpg" (by decide) (by decide)
  · have hname : mkCorrectedName "trip" "007" "jpg" =
        "trip-007-corrected.jpg" := by decide
    rw [← hname]
    exact h8 "hike-007-corrected.jpg" "hike" "007" "jpg"
      ⟨"trip-007-corrected.jpg", "trip", "jpg"⟩ (by decide) (by decide)
      (by decide) (by decide)

/-- C6.  Idempotence of identifier-based pairing: with directory B's
names distinct and side A's mapping nonempty, running
`match_and_rename_files` and then running it again on the resulting
directory performs zero renames on the second run, leaves the
directory unchanged, and counts as skipped exactly the B files whose
number has a key in side A's mapping. -/
theorem claim_C6_idempotence (dirA dirB : List String)
    (hB : dirB.Nodup) (hA : buildFilesA dirA ≠ []) :
    ∃ r1 r2, match_and_rename_files dirA dirB = some r1 ∧
      match_and_rename_files dirA r1.dirB = some r2 ∧
      r2.renamed = 0 ∧
      r2.dirB = r1.dirB ∧
      r2.skipped = r1.dirB.countP (fun fn =>
        isSameB (buildFilesA dirA) fn || isRenameB (buildFilesA dirA) fn) := by
  obtain ⟨i1, i2, i3, i4, i5, i6, i7, i8, i9⟩ :=
    runB_spec (buildFilesA dirA) (buildFilesA_wf dirA) dirB
      ⟨dirB, 0, 0, 0, [], []⟩ hB hB (fun fn h => h) (fun x hx => Or.inr hx)
  refine ⟨runB (buildFilesA dirA) ⟨dirB, 0, 0, 0, [], []⟩ dirB,
    runB (buildFilesA dirA)
      ⟨(runB (buildFilesA dirA) ⟨dirB, 0, 0, 0, [], []⟩ dirB).dirB,
        0, 0, 0, [], []⟩
      (runB (buildFilesA dirA) ⟨dirB, 0, 0, 0, [], []⟩ dirB).dirB,
    ?_, ?_, ?_, ?_, ?_⟩
  · unfold match_and_rename_files
    rw [if_neg hA]
  · unfold match_and_rename_files
    rw [if_neg hA]
  case _ =>
    obtain ⟨j1, j2, j3, j4, j5, j6, j7, j8, j9⟩ :=
      runB_spec (buildFilesA dirA) (buildFilesA_wf dirA)
        (runB (buildFilesA dirA) ⟨dirB, 0, 0, 0, [], []⟩ dirB).dirB
        ⟨(runB (buildFilesA dirA) ⟨dirB, 0, 0, 0, [], []⟩ dirB).dirB,
          0, 0, 0, [], []⟩
        i1 i1 (fun fn h => h) (fun x hx => Or.inl (i2 x hx))
    rw [j4]
    have hz : ((runB (buildFilesA dirA) ⟨dirB, 0, 0, 0, [], []⟩
        dirB).dirB).countP (isRenameB (buildFilesA dirA)) = 0 := by
      apply List.countP_eq_zero.mpr
      intro a ha
      rw [i2 a ha]
      simp
    rw [hz]
  case _ =>
    obtain ⟨j1, j2, j3, j4, j5, j6, j7, j8, j9⟩ :=
      runB_spec (buildFilesA dirA) (buildFilesA_wf dirA)
        (runB (buildFilesA dirA) ⟨dirB, 0, 0, 0, [], []⟩ dirB).dirB
        ⟨(runB (buildFilesA dirA) ⟨dirB, 0, 0, 0, [], []⟩ dirB).dirB,
          0, 0, 0, [], []⟩
        i1 i1 (fun fn h => h) (fun x hx => Or.inl (i2 x hx))
    have hz : ((runB (buildFilesA dirA) ⟨dirB, 0, 0, 0, [], []⟩
        dirB).dirB).countP (isRenameB (buildFilesA dirA)) = 0 := by
      apply List.countP_eq_zero.mpr
      intro a ha
      rw [i2 a ha]
      simp
    exact j9 hz
  case _ =>
    obtain ⟨j1, j2, j3, j4, j5, j6, j7, j8, j9⟩ :=
      runB_spec (buildFilesA dirA) (buildFilesA_wf dirA)
        (runB (buildFilesA dirA) ⟨dirB, 0, 0, 0, [], []⟩ dirB).dirB
        ⟨(runB (buildFilesA dirA) ⟨dirB, 0, 0, 0, [], []⟩ dirB).dirB,
          0, 0, 0, [], []⟩
        i1 i1 (fun fn h => h) (fun x hx => Or.inl (i2 x hx))
    rw [j3]
    have hcong : ((runB (buildFilesA dirA) ⟨dirB, 0, 0, 0, [], []⟩
        dirB).dirB).countP (isSameB (buildFilesA dirA)) =
        ((runB (buildFilesA dirA) ⟨dirB, 0, 0, 0, [], []⟩
          dirB).dirB).countP (fun fn =>
            isSameB (buildFilesA dirA) fn ||
              isRenameB (buildFilesA dirA) fn) := by
      apply List.countP_congr
      intro a ha
      rw [i2 a ha]
      simp
    rw [← hcong]
    simp

/-- Witness for C6 at a concrete pair of directories. -/
theorem claim_C6_idempotence_witness :
    (["hike-007-corrected.png", "zz-5-corrected.jpg", "w-9-corrected.t"] :
      List String).Nodup ∧
    buildFilesA ["trip-007-corrected.jpg", "q-5-corrected.7-corrected.z"]
      ≠ [] ∧
    ∃ r1 r2, match_and_rename_files
        ["trip-007-corrected.jpg", "q-5-corrected.7-corrected.z"]
        ["hike-007-corrected.png", "zz-5-corrected.jpg", "w-9-corrected.t"]
        = some r1 ∧
      match_and_rename_files
        ["trip-007-corrected.jpg", "q-5-corrected.7-corrected.z"] r1.dirB
        = some r2 ∧
      r2.renamed = 0 ∧ r2.dirB = r1.dirB := by
  refine ⟨by decide, by decide, ?_⟩
  obtain ⟨r1, r2, h1, h2, h3, h4, h5⟩ :=
    claim_C6_idempotence
      ["trip-007-corrected.jpg", "q-5-corrected.7-corrected.z"]
      ["hike-007-corrected.png", "zz-5-corrected.jpg", "w-9-corrected.t"]
      (by decide) (by decide)
  exact ⟨r1, r2, h1, h2, h3, h4⟩

/-! ### Theorems: rename collisions (C4) -/

theorem stepB_errors (fa : List (String × SideAInfo)) (st : BState)
    (fn : String) : (stepB fa st fn).errors = st.errors := by
  by_cases h : fn ∈ st.dirB
  · cases hcl : classifyB fa fn with
    | same => rw [stepB_same fa st fn h hcl]
    | rename tgt => rw [stepB_rename fa st fn tgt h hcl]
    | noKey => rw [stepB_noKey fa st fn h hcl]
    | noPat => rw [stepB_noPat fa st fn h hcl]
  · rw [stepB_not_mem fa st fn h]

theorem runB_errors (fa : List (String × SideAInfo)) :
    ∀ (rem : List String) (st : BState), (runB fa st rem).errors = st.errors := by
  intro rem
  induction rem with
  | nil => intro st; rfl
  | cons fn rest ih =>
    intro st
    rw [runB, ih, stepB_errors]

theorem renameOver_length (d : List String) (old new : String)
    (hnd : d.Nodup) (hnew : new ∈ d) :
    (renameOver d old new).length + 1 = d.length := by
  unfold renameOver
  rw [List.length_map]
  induction d with
  | nil => cases hnew
  | cons a rest ih =>
    rw [List.filter_cons]
    by_cases ha : a = new
    · rw [if_neg (by simpa using ha)]
      have hnotin : new ∉ rest := by
        rw [← ha]
        exact (List.nodup_cons.mp hnd).1
      have hall : rest.filter (fun x => x ≠ new) = rest := by
        apply List.filter_eq_self.mpr
        intro x hx
        simp only [ne_eq, decide_eq_true_eq]
        intro hxe
        exact hnotin (hxe ▸ hx)
      rw [hall, List.length_cons]
    · rw [if_pos (by simpa using ha)]
      have hnew' : new ∈ rest := by
        rcases List.mem_cons.mp hnew with h | h
        · exact absurd h.symm ha
        · exact h
      rw [List.length_cons, List.length_cons,
        ← ih (List.nodup_cons.mp hnd).2 hnew']

/-- C4 counterexample.  Directory A holds `trip-7-corrected.jpg`;
directory B holds `hike-7-corrected.jpg` and `trip-7-corrected.jpg`.
Renaming `hike-7-corrected.jpg` targets the already-existing name
`trip-7-corrected.jpg`: the engine counts a normal rename, reports no
error, and B's listing shrinks from two entries to one — the
pre-existing file was silently overwritten, contradicting the claim
that such a collision is an error for that file and that the
pre-existing file is never silently overwritten. -/
theorem claim_C4_counterexample :
    (match_and_rename_files ["trip-7-corrected.jpg"]
        ["hike-7-corrected.jpg", "trip-7-corrected.jpg"]).map
      (fun r => (r.errors, r.renamed, r.skipped, r.dirB)) =
      some (0, 1, 1, ["trip-7-corrected.jpg"]) := by decide

/-- C4 amended.  The identifier-based engine never reports any rename
error (an exception would be caught and counted, but the modelled
POSIX `shutil.move` cannot fail and never checks the target): the
error count of every run is zero; and a rename whose target name
already exists silently replaces it — the target name is present
afterwards and the directory has lost one entry. -/
theorem claim_C4_amended :
    (∀ dirA dirB r, match_and_rename_files dirA dirB = some r →
      r.errors = 0) ∧
    (∀ (d : List String) (old new : String), d.Nodup → old ∈ d →
      new ∈ d → old ≠ new →
      new ∈ renameOver d old new ∧
        (renameOver d old new).length + 1 = d.length) := by
  constructor
  · intro dirA dirB r h
    unfold match_and_rename_files at h
    by_cases hA : buildFilesA dirA = []
    · rw [if_pos hA] at h
      exact absurd h (by simp)
    · rw [if_neg hA] at h
      have hr : r = runB (buildFilesA dirA) ⟨dirB, 0, 0, 0, [], []⟩ dirB := by
        simpa using h.symm
      rw [hr, runB_errors]
  · intro d old new hnd hold hnew hne
    exact ⟨mem_renameOver_self d old new hold hne,
      renameOver_length d old new hnd hnew⟩

/-- Witness for the amended C4 at concrete inputs. -/
theorem claim_C4_amended_witness :
    (∃ r, match_and_rename_files ["trip-7-corrected.jpg"]
        ["hike-7-corrected.jpg", "trip-7-corrected.jpg"] = some r ∧
      r.errors = 0) ∧
    ("b" ∈ renameOver ["a", "b"] "a" "b" ∧
      (renameOver ["a", "b"] "a" "b").length + 1 =
        (["a", "b"] : List String).length) := by
  constructor
  · refine ⟨⟨["trip-7-corrected.jpg"], 1, 1, 0, [], []⟩, by decide, ?_⟩
    exact claim_C4_amended.1 ["trip-7-corrected.jpg"]
      ["hike-7-corrected.jpg", "trip-7-corrected.jpg"] _ (by decide)
  · exact claim_C4_amended.2 ["a", "b"] "a" "b" (by decide) (by decide)
      (by decide) (by decide)

/-! ### Theorems: the pairing-result invariant (C5) -/

theorem dictInsert_keys_nodup (m : List (String × SideAInfo)) (k : String)
    (v : SideAInfo) (h : (m.map Prod.fst).Nodup) :
    ((dictInsert m k v).map Prod.fst).Nodup := by
  unfold dictInsert
  by_cases hany : m.any (fun kv => kv.1 = k)
  · rw [if_pos hany]
    have heq : ((m.map (fun kv => if kv.1 = k then (k, v) else kv)).map
        Prod.fst) = m.map Prod.fst := by
      rw [List.map_map]
      apply List.map_congr_left
      intro kv hkv
      by_cases hk : kv.1 = k
      · simp [hk]
      · simp [hk]
    rw [heq]
    exact h
  · rw [if_neg hany, List.map_append, List.nodup_append]
    refine ⟨h, by simp, ?_⟩
    intro a ha hb
    simp only [List.map_cons, List.map_nil, List.mem_singleton] at hb
    subst hb
    rcases List.mem_map.mp ha with ⟨kv, hkv, hfst⟩
    apply hany
    apply List.any_eq_true.mpr
    exact ⟨kv, hkv, by simp [hfst]⟩

theorem foldl_buildStep_keys_nodup (l : List String) :
    ∀ m, (m.map Prod.fst).Nodup →
      ((l.foldl buildStep m).map Prod.fst).Nodup := by
  induction l with
  | nil => intro m hm; exact hm
  | cons fn rest ih =>
    intro m hm
    rw [List.foldl_cons]
    apply ih
    unfold buildStep
    cases hp : parseCorrected fn with
    | none => exact hm
    | some t =>
      obtain ⟨p, num, ext⟩ := t
      exact dictInsert_keys_nodup m num ⟨fn, p, ext⟩ hm

theorem foldl_buildStep_fname (l : List String) :
    ∀ m kv, kv ∈ l.foldl buildStep m → kv ∈ m ∨ kv.2.fname ∈ l := by
  induction l with
  | nil => intro m kv h; exact Or.inl h
  | cons fn rest ih =>
    intro m kv h
    rw [List.foldl_cons] at h
    rcases ih (buildStep m fn) kv h with h1 | h1
    · unfold buildStep at h1
      cases hp : parseCorrected fn with
      | none =>
        rw [hp] at h1
        exact Or.inl h1
      | some t =>
        obtain ⟨p, num, ext⟩ := t
        simp only [hp] at h1
        rcases mem_dictInsert _ _ _ _ h1 with h2 | h2
        · exact Or.inl h2
        · right
          rw [h2]
          exact List.mem_cons_self _ _
    · exact Or.inr (List.mem_cons_of_mem fn h1)

/-- C5 counterexample.  With A = `[p-7-corrected.jpg, q-7-corrected.jpg]`
and B empty, the mapping contains the key `7` with only the later
A-side file stored, although two A-side files carry that number — the
key does not have "exactly one file from each side" (two on side A,
zero on side B) — and the run reports nothing at all: the shadowed
A-side file is silently dropped from the mapping. -/
theorem claim_C5_counterexample :
    dictFind (buildFilesA ["p-7-corrected.jpg", "q-7-corrected.jpg"]) "7" =
      some ⟨"q-7-corrected.jpg", "q", "jpg"⟩ ∧
    (["p-7-corrected.jpg", "q-7-corrected.jpg"] : List String).countP
      (fun fn =>
        match parseCorrected fn with
        | some (_, num, _) => num == "7"
        | none => false) = 2 ∧
    (match_and_rename_files ["p-7-corrected.jpg", "q-7-corrected.jpg"]
        []).map
      (fun r => (r.renamed, r.skipped, r.errors, r.unmatched,
        r.badPattern)) = some (0, 0, 0, [], []) := by decide

/-- C5 amended.  The mapping's keys are distinct and each key stores
exactly one entry, which is a parsed file of directory A's listing;
provided the mapping is nonempty, B-side files whose number has no key
in the mapping are reported in the unmatched list — when the mapping
is empty the run returns early and reports nothing about directory B;
and several A-side files may share a number (only the last scanned is
stored and the shadowed ones are dropped without report), while a key
may correspond to zero or several B-side files. -/
theorem claim_C5_amended :
    (∀ dirA : List String, ((buildFilesA dirA).map Prod.fst).Nodup) ∧
    (∀ (dirA : List String) (k : String) (info : SideAInfo),
      dictFind (buildFilesA dirA) k = some info →
      parseCorrected info.fname = some (info.pfx, k, info.ext) ∧
        info.fname ∈ dirA) ∧
    (∀ dirA dirB : List String, dirB.Nodup → buildFilesA dirA ≠ [] →
      ∃ r, match_and_rename_files dirA dirB = some r ∧
        r.unmatched = dirB.filter (isNoKeyB (buildFilesA dirA))) ∧
    (∀ dirA dirB : List String, buildFilesA dirA = [] →
      match_and_rename_files dirA dirB = none) := by
  refine ⟨?_, ?_, ?_, ?_⟩
  · intro dirA
    exact foldl_buildStep_keys_nodup dirA [] (by simp)
  · intro dirA k info h
    have hmem := dictFind_mem (buildFilesA dirA) k info h
    refine ⟨buildFilesA_wf dirA (k, info) hmem, ?_⟩
    rcases foldl_buildStep_fname dirA [] (k, info) hmem with h1 | h1
    · simp at h1
    · exact h1
  · intro dirA dirB hB hA
    refine ⟨runB (buildFilesA dirA) ⟨dirB, 0, 0, 0, [], []⟩ dirB, ?_, ?_⟩
    · unfold match_and_rename_files
      rw [if_neg hA]
    · obtain ⟨i1, i2, i3, i4, i5, i6, i7, i8, i9⟩ :=
        runB_spec (buildFilesA dirA) (buildFilesA_wf dirA) dirB
          ⟨dirB, 0, 0, 0, [], []⟩ hB hB (fun fn h => h) (fun x hx => Or.inr hx)
      rw [i6]
      simp
  · intro dirA dirB hA
    unfold match_and_rename_files
    rw [if_pos hA]

/-- Witness for the amended C5 at concrete inputs. -/
theorem claim_C5_amended_witness :
    ((buildFilesA ["p-7-corrected.jpg", "q-7-corrected.jpg"]).map
      Prod.fst).Nodup ∧
    (parseCorrected "q-7-corrected.jpg" = some ("q", "7", "jpg") ∧
      "q-7-corrected.jpg" ∈ (["p-7-corrected.jpg", "q-7-corrected.jpg"] :
        List String)) ∧
    (∃ r, match_and_rename_files ["p-7-corrected.jpg"]
        ["x-9-corrected.png"] = some r ∧
      r.unmatched = ["x-9-corrected.png"]) ∧
    (buildFilesA ["readme.txt"] = [] ∧
      match_and_rename_files ["readme.txt"] ["y-2-corrected.jpg"] =
        none) := by
  refine ⟨claim_C5_amended.1 _, ?_, ?_, ?_⟩
  · exact claim_C5_amended.2.1 ["p-7-corrected.jpg", "q-7-corrected.jpg"]
      "7" ⟨"q-7-corrected.jpg", "q", "jpg"⟩ (by decide)
  · obtain ⟨r, h1, h2⟩ := claim_C5_amended.2.2.1 ["p-7-corrected.jpg"]
      ["x-9-corrected.png"] (by decide) (by decide)
    exact ⟨r, h1, by rw [h2]; decide⟩
  · exact ⟨by decide, claim_C5_amended.2.2.2 ["readme.txt"]
      ["y-2-corrected.jpg"] (by decide)⟩

/-! ### Theorems: index-based pairing (C2, C3) -/

theorem zipRenameFold_renames (ps : List (String × String)) :
    ∀ d, (zipRenameFold ps d).2 = ps.filterMap
      (fun q => if q.2 = q.1 then none else some (q.2, q.1)) := by
  induction ps with
  | nil => intro d; rfl
  | cons q rest ih =>
    intro d
    obtain ⟨a, b⟩ := q
    by_cases hq : b = a
    · simp [zipRenameFold, hq, ih]
    · simp [zipRenameFold, hq, ih]

/-- C2.  Index-based pairing: when the filtered, naturally sorted image
lists of the two folders have equal length, step 1 is not fatal, the
renames performed are exactly the zipped positions at which the two
names differ — each renaming the second folder's file to the first
folder's name at that position. -/
theorem claim_C2_index_pairing (folder1 folder2 : List String)
    (h : (sortedImages folder1).length = (sortedImages folder2).length) :
    (process_images_step1 folder1 folder2).fatal = none ∧
    (process_images_step1 folder1 folder2).renames =
      ((sortedImages folder1).zip (sortedImages folder2)).filterMap
        (fun q => if q.2 = q.1 then none else some (q.2, q.1)) ∧
    (∀ (i : Nat) (h1 : i < (sortedImages folder1).length)
        (h2 : i < (sortedImages folder2).length),
      (sortedImages folder1)[i] ≠ (sortedImages folder2)[i] →
      ((sortedImages folder2)[i], (sortedImages folder1)[i]) ∈
        (process_images_step1 folder1 folder2).renames) := by
  unfold process_images_step1
  rw [if_pos h]
  refine ⟨rfl, zipRenameFold_renames _ folder2, ?_⟩
  intro i h1 h2 hne
  show _ ∈ (zipRenameFold _ folder2).2
  rw [zipRenameFold_renames _ folder2]
  apply List.mem_filterMap.mpr
  have hil : i < ((sortedImages folder1).zip (sortedImages folder2)).length := by
    rw [List.length_zip]
    omega
  refine ⟨((sortedImages folder1)[i], (sortedImages folder2)[i]), ?_, ?_⟩
  · rw [← @List.getElem_zip _ _ (sortedImages folder1) (sortedImages folder2)
      i hil]
    exact List.getElem_mem hil
  · rw [if_neg (fun heq => hne heq.symm)]

/-- Witness for C2 on the spec's example: folders `[a1.jpg, a2.jpg]`
and `[z9.jpg, z1.jpg]`. -/
theorem claim_C2_index_pairing_witness :
    (sortedImages ["a1.jpg", "a2.jpg"]).length =
      (sortedImages ["z9.jpg", "z1.jpg"]).length ∧
    (process_images_step1 ["a1.jpg", "a2.jpg"] ["z9.jpg", "z1.jpg"]).fatal
      = none ∧
    (process_images_step1 ["a1.jpg", "a2.jpg"] ["z9.jpg", "z1.jpg"]).renames
      = [("z1.jpg", "a1.jpg"), ("z9.jpg", "a2.jpg")] := by
  have h := claim_C2_index_pairing ["a1.jpg", "a2.jpg"] ["z9.jpg", "z1.jpg"]
    (by decide)
  exact ⟨by decide, h.1, by rw [h.2.1]; decide⟩

/-- C3.  Count-mismatch precondition: when the two folders' image
counts differ, step 1 aborts fatally with an error carrying both
counts, performs zero renames, and leaves the second folder's listing
untouched. -/
theorem claim_C3_count_mismatch (folder1 folder2 : List String)
    (h : (sortedImages folder1).length ≠ (sortedImages folder2).length) :
    process_images_step1 folder1 folder2 =
      ⟨some ((sortedImages folder1).length, (sortedImages folder2).length),
        folder2, []⟩ := by
  unfold process_images_step1
  rw [if_neg h]

/-- Witness for C3 on the spec's example: A has 2 images, B has 3. -/
theorem claim_C3_count_mismatch_witness :
    (sortedImages ["a1.jpg", "a2.jpg"]).length ≠
      (sortedImages ["z9.jpg", "z1.jpg", "z3.jpg"]).length ∧
    process_images_step1 ["a1.jpg", "a2.jpg"] ["z9.jpg", "z1.jpg", "z3.jpg"]
      = ⟨some (2, 3), ["z9.jpg", "z1.jpg", "z3.jpg"], []⟩ := by
  refine ⟨by decide, ?_⟩
  rw [claim_C3_count_mismatch ["a1.jpg", "a2.jpg"]
    ["z9.jpg", "z1.jpg", "z3.jpg"] (by decide)]
  decide

/-! ### Theorems: external tool failures (C9) -/

/-- C9 counterexample.  In `process_images` step 2, a tool failure
while reading one file's orientation makes `run_command` return
`None`, and `int(None)` raises an uncaught `TypeError`: with two
files, a failure on the first crashes the run with zero files
processed and the second file never reached — contradicting the claim
that one file's tool failure never aborts processing of the remaining
files of the batch. -/
theorem claim_C9_counterexample :
    rotateStep2 (fun f => if f = "a.jpg" then CmdResult.failure 1 "" "err"
      else CmdResult.success "1") ["a.jpg", "b.jpg"] =
      RotateOutcome.crashed 0 "a.jpg" := by decide

/-- C9 amended.  `run_command` itself never raises on a nonzero exit —
the failure is surfaced as `None` data — but the rotation loop of
`slrspatial.process_images` converts that `None` (or an unparsable
output) into an uncaught exception: the loop crashes at the first file
whose orientation probe fails, after processing exactly the files
before it, leaving the rest unprocessed. -/
theorem claim_C9_amended :
    (∀ code out err, run_command (CmdResult.failure code out err) = none) ∧
    (∀ out, run_command (CmdResult.success out) = some (pyStrip out)) ∧
    (∀ (orient : String → CmdResult) (pre : List String) (img : String)
        (rest : List String),
      (∀ f ∈ pre, ∃ s, run_command (orient f) = some s ∧
        (pyInt s).isSome = true) →
      (run_command (orient img) = none ∨
        ∃ s, run_command (orient img) = some s ∧ pyInt s = none) →
      rotateStep2 orient (pre ++ img :: rest) =
        RotateOutcome.crashed pre.length img) := by
  refine ⟨fun code out err => rfl, fun out => rfl, ?_⟩
  intro orient pre
  induction pre with
  | nil =>
    intro img rest hpre hbad
    rcases hbad with hb | ⟨s, hs, hps⟩
    · rw [List.nil_append, rotateStep2, hb]
      rfl
    · rw [List.nil_append, rotateStep2, hs]
      simp only [hps]
      rfl
  | cons f pre' ih =>
    intro img rest hpre hbad
    obtain ⟨s, hs, hsome⟩ := hpre f (by simp)
    obtain ⟨n, hn⟩ := Option.isSome_iff_exists.mp hsome
    rw [List.cons_append, rotateStep2, hs]
    simp only [hn]
    rw [ih img rest (fun g hg => hpre g (List.mem_cons_of_mem f hg)) hbad]
    simp

/-- Witness for the amended C9 at concrete inputs. -/
theorem claim_C9_amended_witness :
    run_command (CmdResult.failure 1 "" "err") = none ∧
    run_command (CmdResult.success " 6 ") = some (pyStrip " 6 ") ∧
    rotateStep2 (fun f => if f = "bad.jpg" then CmdResult.failure 1 "" "e"
        else CmdResult.success "1") (["ok.jpg"] ++ "bad.jpg" :: ["later.jpg"])
      = RotateOutcome.crashed (["ok.jpg"] : List String).length "bad.jpg" :=
  ⟨claim_C9_amended.1 1 "" "err", claim_C9_amended.2.1 " 6 ",
    claim_C9_amended.2.2
      (fun f => if f = "bad.jpg" then CmdResult.failure 1 "" "e"
        else CmdResult.success "1") ["ok.jpg"] "bad.jpg" ["later.jpg"]
      (by
        intro f hf
        simp only [List.mem_singleton] at hf
        subst hf
        exact ⟨pyStrip "1", by decide, by decide⟩)
      (Or.inl (by decide))⟩

/-! ### Theorems: datetime stamping (C8) -/

theorem dtFold_counts (l : List String) :
    ∀ acc : Nat × Nat × Nat,
      (l.foldl dtStep acc).1 + (l.foldl dtStep acc).2.1 +
          (l.foldl dtStep acc).2.2 =
        acc.1 + acc.2.1 + acc.2.2 + l.length := by
  induction l with
  | nil => intro acc; simp
  | cons f rest ih =>
    intro acc
    rw [List.foldl_cons]
    rw [ih (dtStep acc f)]
    cases hcl : classifyDatetime f <;> simp [dtStep, hcl] <;> omega

/-- C8.  Datetime stamping classifies each `-sbs.tiff` file three
ways: a filename with no `IMG(8 digits)-(6 digits)` occurrence is a
skip; a match whose digits are not calendar-valid is an error for that
file; a valid match yields the `YYYY:MM:DD HH:MM:SS` timestamp string
(here `2023:07:04 15:30:00`); and the loop always completes — the
three counters always sum to the number of filtered files, whatever
the inputs. -/
theorem claim_C8_datetime_classification :
    (∀ f : String, searchDate f.data = none →
      classifyDatetime f = DtOutcome.skipped) ∧
    (∀ (f : String) (d8 t6 : List Char), searchDate f.data = some (d8, t6) →
      validDateTime (digitsVal (d8.take 4)) (digitsVal ((d8.drop 4).take 2))
        (digitsVal (d8.drop 6)) (digitsVal (t6.take 2))
        (digitsVal ((t6.drop 2).take 2)) (digitsVal (t6.drop 4)) = false →
      classifyDatetime f = DtOutcome.errored) ∧
    classifyDatetime "IMG20230704-153000-sbs.tiff" =
      DtOutcome.success "2023:07:04 15:30:00" ∧
    classifyDatetime "IMG99999999-999999-sbs.tiff" = DtOutcome.errored ∧
    (∀ files : List String,
      (set_datetime_from_filename files).1 +
        (set_datetime_from_filename files).2.1 +
        (set_datetime_from_filename files).2.2 =
        (files.filter isSbsTiff).length) := by
  refine ⟨?_, ?_, by decide, by decide, ?_⟩
  · intro f hf
    unfold classifyDatetime
    rw [hf]
  · intro f d8 t6 hf hv
    unfold classifyDatetime
    rw [hf]
    simp only [hv]
    rw [if_neg (by simp)]
  · intro files
    unfold set_datetime_from_filename
    rw [dtFold_counts]
    simp

/-- Witness for C8 at concrete inputs. -/
theorem claim_C8_datetime_classification_witness :
    (searchDate "photo-sbs.tiff".data = none ∧
      classifyDatetime "photo-sbs.tiff" = DtOutcome.skipped) ∧
    classifyDatetime "IMG20230704-153000-sbs.tiff" =
      DtOutcome.success "2023:07:04 15:30:00" ∧
    (set_datetime_from_filename ["IMG20230704-153000-sbs.tiff",
        "IMG99999999-999999-sbs.tiff", "photo-sbs.tiff", "other.jpg"]).1 +
      (set_datetime_from_filename ["IMG20230704-153000-sbs.tiff",
        "IMG99999999-999999-sbs.tiff", "photo-sbs.tiff", "other.jpg"]).2.1 +
      (set_datetime_from_filename ["IMG20230704-153000-sbs.tiff",
        "IMG99999999-999999-sbs.tiff", "photo-sbs.tiff", "other.jpg"]).2.2 =
      ((["IMG20230704-153000-sbs.tiff", "IMG99999999-999999-sbs.tiff",
        "photo-sbs.tiff", "other.jpg"] : List String).filter
          isSbsTiff).length :=
  ⟨⟨by decide, claim_C8_datetime_classification.1 "photo-sbs.tiff"
      (by decide)⟩,
    claim_C8_datetime_classification.2.2.1,
    claim_C8_datetime_classification.2.2.2.2
      ["IMG20230704-153000-sbs.tiff", "IMG99999999-999999-sbs.tiff",
        "photo-sbs.tiff", "other.jpg"]⟩

end SpatialScripts
